import Mathlib

/-!
Verification of the consolidation pipeline of the bandcamp-downloader
repository.  The definitions below are a shallow embedding of the mailing
list consolidation in src/commands/bandcamp_mails.py and the revenue report
consolidation in src/commands/bandcamp_reports.py: CSV files are byte lists,
decoded text is a character list, parsed rows are string lists, the SQLite
tables are association lists keyed as the schemas declare, and the wall
clock consulted by datetime.now is an explicit parameter sampled in call
order.  Machine arithmetic does not occur in this code path (Python
integers are unbounded), so counts are Int and instants are Nat.
-/

namespace Bandcamp

/-- Characters removed by str.strip() when called without arguments. -/
def stripChars (cs : List Char) : List Char :=
  ((cs.dropWhile Char.isWhitespace).reverse.dropWhile Char.isWhitespace).reverse

/-- str.strip(): surrounding whitespace removed. -/
def pyStrip (s : String) : String := String.mk (stripChars s.data)

/-- str.lower() restricted to the ASCII case mapping, which covers the mail
addresses and header names these exports contain. -/
def pyLower (s : String) : String := String.mk (s.data.map Char.toLower)

/-- Model of the Python builtin int applied to a string, as used for the
num purchases and quantity fields: surrounding whitespace is removed and an
optional sign must be followed by one or more decimal digits. -/
def pyInt? (s : String) : Option Int :=
  let t := stripChars s.data
  let sd : Int × List Char :=
    match t with
    | '-' :: rest => (-1, rest)
    | '+' :: rest => (1, rest)
    | rest => (1, rest)
  if sd.2 ≠ [] ∧ sd.2.all Char.isDigit then
    some (sd.1 * ((sd.2.foldl (fun n c => n * 10 + (c.toNat - 48)) 0 : Nat) : Int))
  else none

/-- The num purchases parsing in consolidate_csv_files of
src/commands/bandcamp_mails.py: int(row[7]) when the stripped field is
non-empty, with a ValueError recovered as 0, and 0 for an empty field. -/
def parsePurchases (s : String) : Int :=
  if stripChars s.data = [] then 0 else (pyInt? s).getD 0

/-- Recogniser for the Python builtin float applied to a string (only
acceptance matters to the revenue insert, which skips a row whose numeric
coercion raises): optional surrounding whitespace and sign, then either an
infinity or nan word or a decimal mantissa with at least one digit and an
optional exponent. -/
def pyFloatAccepts (s : String) : Bool :=
  let t0 := (stripChars s.data).map Char.toLower
  let t : List Char :=
    match t0 with
    | '+' :: rest => rest
    | '-' :: rest => rest
    | rest => rest
  if t = "inf".data ∨ t = "infinity".data ∨ t = "nan".data then true
  else
    let checkMantissa : List Char → Bool := fun m =>
      match m.splitOn '.' with
      | [a] => a ≠ [] ∧ a.all Char.isDigit
      | [a, b] => a.all Char.isDigit ∧ b.all Char.isDigit ∧ (a ≠ [] ∨ b ≠ [])
      | _ => false
    match t.splitOn 'e' with
    | [m] => checkMantissa m
    | [m, ex] =>
      let ex2 : List Char :=
        match ex with
        | '+' :: rest => rest
        | '-' :: rest => rest
        | rest => rest
      checkMantissa m ∧ ex2 ≠ [] ∧ ex2.all Char.isDigit
    | _ => false

/-- Leap year rule of the proleptic Gregorian calendar used by
datetime. -/
def isLeapYear (y : Nat) : Bool := (y % 4 = 0 && y % 100 != 0) || y % 400 = 0

def monthLengths (y : Nat) : List Nat :=
  [31, if isLeapYear y then 29 else 28, 31, 30, 31, 30, 31, 31, 30, 31, 30, 31]

def daysInMonth (y m : Nat) : Nat := (monthLengths y).getD (m - 1) 0

/-- Days contained in the years 1 .. y-1. -/
def daysBeforeYear (y : Nat) : Nat :=
  365 * (y - 1) + (y - 1) / 4 - (y - 1) / 100 + (y - 1) / 400

/-- Days contained in the months of year y that precede month m. -/
def daysBeforeMonth (y m : Nat) : Nat :=
  ((monthLengths y).take (m - 1)).foldl (· + ·) 0

/-- A datetime with minute resolution collapsed to a single Nat so that the
order of these values is the order of the datetimes. -/
def dateToMinutes (y m d h mi : Nat) : Nat :=
  ((daysBeforeYear y + daysBeforeMonth y m + (d - 1)) * 24 + h) * 60 + mi

def monthAbbrevs : List String :=
  ["jan", "feb", "mar", "apr", "may", "jun", "jul", "aug", "sep", "oct", "nov", "dec"]

/-- Case insensitive match of one abbreviated month name, as the strptime
regular expression performs it. -/
def monthIndex? (cs : List Char) : Option Nat :=
  match monthAbbrevs.findIdx? (fun m => m.data = cs.map Char.toLower) with
  | some i => some (i + 1)
  | none => none

def splitWsAux (cur : List Char) : List Char → List (List Char)
  | [] => if cur = [] then [] else [cur.reverse]
  | c :: rest =>
    if c.isWhitespace then
      if cur = [] then splitWsAux [] rest else cur.reverse :: splitWsAux [] rest
    else splitWsAux (c :: cur) rest

/-- Whitespace separated tokens, matching the CPython strptime treatment of
a space in the format as one or more whitespace characters. -/
def splitWs (s : String) : List (List Char) := splitWsAux [] s.data

def allDigits (cs : List Char) : Bool := cs ≠ [] && cs.all Char.isDigit

def digitsToNat (cs : List Char) : Nat := cs.foldl (fun n c => n * 10 + (c.toNat - 48)) 0

/-- The hour:minute component of the strptime format, with the CPython
field shapes for 12 hour clock and minute. -/
def parseClock? (clock : List Char) : Option (Nat × Nat) :=
  match clock.splitOn ':' with
  | [hs, ms] =>
    if allDigits hs && hs.length ≤ 2 && allDigits ms && ms.length ≤ 2 then
      let h := digitsToNat hs
      let mi := digitsToNat ms
      if 1 ≤ h && h ≤ 12 && mi ≤ 59 then some (h, mi) else none
    else none
  | _ => none

def parseAmPm? (cs : List Char) : Option Bool :=
  if cs.map Char.toLower = "am".data then some false
  else if cs.map Char.toLower = "pm".data then some true
  else none

/-- Model of datetime.strptime(s, the abbreviated-month day year
hour:minute AM/PM UTC format) used on the date added field in
consolidate_csv_files of src/commands/bandcamp_mails.py.  Matching is case
insensitive and whitespace separated as in CPython (the caller strips the
field first); the day must exist in the month, the year has four digits and
is at least 1, and the result is the instant in minutes so that comparisons
agree with the datetime order.  A strptime ValueError is none. -/
def parseDateAdded (s : String) : Option Nat :=
  match splitWs s with
  | [mon, day, year, clock, ampm, tz] =>
    match monthIndex? mon, parseClock? clock, parseAmPm? ampm with
    | some m, some hm, some isPm =>
      if allDigits day && day.length ≤ 2 && allDigits year && year.length = 4 &&
          tz.map Char.toLower = "utc".data then
        let d := digitsToNat day
        let y := digitsToNat year
        if 1 ≤ y && 1 ≤ d && d ≤ daysInMonth y m then
          let h24 : Nat :=
            if isPm then (if hm.1 = 12 then 12 else hm.1 + 12)
            else (if hm.1 = 12 then 0 else hm.1)
          some (dateToMinutes y m d h24 hm.2)
        else none
      else none
    | _, _, _ => none
  | _ => none

/-- The value stored in the email_data mapping for one identity: the
winning raw row, its parsed date, and the accumulated purchase total. -/
structure EmailEntry where
  record : List String
  parsed_date : Nat
  total_purchases : Int
deriving Repr, DecidableEq

/-- First-match lookup in an insertion ordered association list, the access
pattern of a Python dict whose keys are unique. -/
def lookupE : List (String × EmailEntry) → String → Option EmailEntry
  | [], _ => none
  | kv :: rest, e => if kv.1 = e then some kv.2 else lookupE rest e

/-- In-place update of the value of an existing key, keeping its position,
as assignment to a present key of a Python dict does. -/
def updateE : List (String × EmailEntry) → String → EmailEntry → List (String × EmailEntry)
  | [], _, _ => []
  | kv :: rest, e, v => if kv.1 = e then (e, v) :: rest else kv :: updateE rest e v

/-- row[0].strip().lower(): the merge identity of a mailing list row. -/
def rowIdentity (row : List String) : String := pyLower (pyStrip (row.getD 0 ""))

/-- One iteration of the merge loop of consolidate_csv_files
(src/commands/bandcamp_mails.py lines 469-506) on a row that has already
been assigned its parsed date: a row with an empty identity is skipped, a
new identity stores the row verbatim with its own count, a strictly earlier
date replaces the stored winner while summing the counts, and otherwise
only the running total accumulates. -/
def mergeStep (st : List (String × EmailEntry)) (rd : List String × Nat) :
    List (String × EmailEntry) :=
  let email := rowIdentity rd.1
  if email = "" then st
  else
    let num := parsePurchases (rd.1.getD 7 "")
    match lookupE st email with
    | none => st ++ [(email, ⟨rd.1, rd.2, num⟩)]
    | some ex =>
      if rd.2 < ex.parsed_date then
        updateE st email ⟨rd.1, rd.2, ex.total_purchases + num⟩
      else
        updateE st email ⟨ex.record, ex.parsed_date, ex.total_purchases + num⟩

/-- Folding a stream of date-annotated rows into the email_data mapping. -/
def mergeRows (l : List (List String × Nat)) : List (String × EmailEntry) :=
  l.foldl mergeStep []

/-- The date every row receives in the merge loop: the strptime result of
row[4].strip() when it parses, and otherwise the datetime.now() reading
taken at that point, modelled by sampling the ambient clock nowAt at the
number of substitutions made so far.  A row with an empty identity is
skipped by the loop before its date is parsed, so it consumes no clock
reading (the 0 recorded here is never read by mergeStep). -/
def assignDates (nowAt : Nat → Nat) : List (List String) → Nat → List (List String × Nat)
  | [], _ => []
  | row :: rest, k =>
    if rowIdentity row = "" then (row, 0) :: assignDates nowAt rest k
    else
      match parseDateAdded (pyStrip (row.getD 4 "")) with
      | some d => (row, d) :: assignDates nowAt rest k
      | none => (row, nowAt k) :: assignDates nowAt rest (k + 1)

/-- The email_data mapping built by the merge loop of
consolidate_csv_files from the name-aligned rows of all files, with the
wall clock threaded through the date substitutions in call order. -/
def consolidate_mailing (nowAt : Nat → Nat) (rows : List (List String)) :
    List (String × EmailEntry) :=
  mergeRows (assignDates nowAt rows 0)

/-- Stable insertion of x into a run sorted by ascending parsed date,
placing x after every element whose key is less than or equal. -/
def insByDate (x : String × EmailEntry) :
    List (String × EmailEntry) → List (String × EmailEntry)
  | [] => [x]
  | y :: ys => if y.2.parsed_date ≤ x.2.parsed_date then y :: insByDate x ys else x :: y :: ys

/-- The Python stable sorted(data.items(), key=parsed_date) of
write_consolidated_csv: elements with equal keys keep their insertion
order. -/
def sortByDate (l : List (String × EmailEntry)) : List (String × EmailEntry) :=
  l.foldl (fun acc x => insByDate x acc) []

def full_expected_headers : List String :=
  ["email", "fullname", "firstname", "lastname", "date added", "country",
   "postal code", "num purchases"]

/-- write_consolidated_csv (src/commands/bandcamp_mails.py lines 348-361)
as the sequence of rows it emits: the header row, then one row per entry
sorted by ascending parsed date, with column 7 replaced by the accumulated
total and column 0 by the identity. -/
def write_consolidated_csv (headers : List String) (data : List (String × EmailEntry)) :
    List (List String) :=
  headers ::
    (sortByDate data).map
      (fun kv => (kv.2.record.set 7 (toString kv.2.total_purchases)).set 0 kv.1)

/-- A row of the mailing_lists table.  The email column is the merge
identity, record keeps the raw winning row whose columns 1-6 populate the
name and address columns, and source_file is the provenance string the
insert attaches. -/
structure MailDbRow where
  email : String
  record : List String
  num_purchases : Int
  total_purchases : Int
  source_file : String
deriving Repr, DecidableEq

/-- The key of the UNIQUE(email, source_file) constraint declared by
create_mailing_database_schema (src/commands/bandcamp_mails.py line 384). -/
def mailKey (r : MailDbRow) : String × String := (r.email, r.source_file)

/-- INSERT OR REPLACE against the unique key: any conflicting row is
deleted and the fresh row appended. -/
def insertOrReplaceMail (db : List MailDbRow) (r : MailDbRow) : List MailDbRow :=
  db.filter (fun x => mailKey x ≠ mailKey r) ++ [r]

/-- Whether the int(record[7]) coercion in insert_mailing_data succeeds:
an empty or whitespace field is coerced to 0, any other value must parse
as an integer or the ValueError makes the insert skip the row. -/
def mailRowInsertable (record : List String) : Bool :=
  stripChars (record.getD 7 "").data = [] || (pyInt? (record.getD 7 "")).isSome

/-- insert_mailing_data (src/commands/bandcamp_mails.py lines 402-440): one
INSERT OR REPLACE per entry of email_data, every row carrying the same
source_file string, the comma-space join of all given file names; an entry
whose purchase field does not coerce is skipped with a warning. -/
def insert_mailing_data (db : List MailDbRow) (email_data : List (String × EmailEntry))
    (source_files : List String) : List MailDbRow :=
  let source_file := String.intercalate ", " source_files
  email_data.foldl
    (fun acc kv =>
      if mailRowInsertable kv.2.record then
        insertOrReplaceMail acc
          { email := kv.1, record := kv.2.record,
            num_purchases :=
              if stripChars (kv.2.record.getD 7 "").data = [] then 0
              else (pyInt? (kv.2.record.getD 7 "")).getD 0,
            total_purchases := kv.2.total_purchases,
            source_file := source_file }
      else acc)
    db

/-- Insertion step of a Python dict built by dict(zip(header, row)): a later
pair overwrites the value of an existing key in place, a new key appends. -/
def pyDictInsert (d : List (String × String)) (kv : String × String) :
    List (String × String) :=
  if d.any (fun p => p.1 = kv.1) then
    d.map (fun p => if p.1 = kv.1 then (p.1, kv.2) else p)
  else d ++ [kv]

def pyDict (pairs : List (String × String)) : List (String × String) :=
  pairs.foldl pyDictInsert []

/-- row_dict.get(k, dflt). -/
def pyGet (d : List (String × String)) (k : String) (dflt : String) : String :=
  match d.find? (fun p => p.1 = k) with
  | some p => p.2
  | none => dflt

/-- The name-based realignment at the top of the merge loop of
consolidate_csv_files: row = [row_dict.get(h, empty string) for h in
full_expected_headers].  Fields are recovered from the per-file dict by
canonical header NAME, not by position. -/
def alignRow (row_dict : List (String × String)) : List String :=
  full_expected_headers.map (fun h => pyGet row_dict h "")

/-- The four encodings process_single_csv tries, in priority order. -/
inductive PyEncoding
  | utf8sig
  | utf8
  | latin1
  | cp1252
deriving Repr, DecidableEq

def isUtf8Cont (b : Nat) : Bool := 0x80 ≤ b && b ≤ 0xBF

/-- Strict UTF-8 decoding of a byte list: the characters decoded before the
first invalid sequence, and whether the whole input decoded. -/
def utf8DecodeCore : List Nat → List Char × Bool
  | [] => ([], true)
  | b :: rest =>
    if b < 0x80 then
      let r := utf8DecodeCore rest
      (Char.ofNat b :: r.1, r.2)
    else if 0xC2 ≤ b && b ≤ 0xDF then
      match rest with
      | c1 :: rest2 =>
        if isUtf8Cont c1 then
          let r := utf8DecodeCore rest2
          (Char.ofNat ((b - 0xC0) * 64 + (c1 - 0x80)) :: r.1, r.2)
        else ([], false)
      | [] => ([], false)
    else if 0xE0 ≤ b && b ≤ 0xEF then
      match rest with
      | c1 :: c2 :: rest2 =>
        if (if b = 0xE0 then 0xA0 else 0x80) ≤ c1 && c1 ≤ (if b = 0xED then 0x9F else 0xBF)
            && isUtf8Cont c2 then
          let r := utf8DecodeCore rest2
          (Char.ofNat ((b - 0xE0) * 4096 + (c1 - 0x80) * 64 + (c2 - 0x80)) :: r.1, r.2)
        else ([], false)
      | _ => ([], false)
    else if 0xF0 ≤ b && b ≤ 0xF4 then
      match rest with
      | c1 :: c2 :: c3 :: rest2 =>
        if (if b = 0xF0 then 0x90 else 0x80) ≤ c1 && c1 ≤ (if b = 0xF4 then 0x8F else 0xBF)
            && isUtf8Cont c2 && isUtf8Cont c3 then
          let r := utf8DecodeCore rest2
          (Char.ofNat ((b - 0xF0) * 262144 + (c1 - 0x80) * 4096 + (c2 - 0x80) * 64
            + (c3 - 0x80)) :: r.1, r.2)
        else ([], false)
      | _ => ([], false)
    else ([], false)

/-- The cp1252 code page: ASCII and 0xA0-0xFF map to themselves, the
0x80-0x9F block maps through the Windows table, and the five unassigned
bytes raise a UnicodeDecodeError. -/
def cp1252Map? (b : Nat) : Option Nat :=
  if b < 0x80 then some b
  else if 0xA0 ≤ b && b ≤ 0xFF then some b
  else
    match b with
    | 0x80 => some 0x20AC
    | 0x82 => some 0x201A
    | 0x83 => some 0x0192
    | 0x84 => some 0x201E
    | 0x85 => some 0x2026
    | 0x86 => some 0x2020
    | 0x87 => some 0x2021
    | 0x88 => some 0x02C6
    | 0x89 => some 0x2030
    | 0x8A => some 0x0160
    | 0x8B => some 0x2039
    | 0x8C => some 0x0152
    | 0x8E => some 0x017D
    | 0x91 => some 0x2018
    | 0x92 => some 0x2019
    | 0x93 => some 0x201C
    | 0x94 => some 0x201D
    | 0x95 => some 0x2022
    | 0x96 => some 0x2013
    | 0x97 => some 0x2014
    | 0x98 => some 0x02DC
    | 0x99 => some 0x2122
    | 0x9A => some 0x0161
    | 0x9B => some 0x203A
    | 0x9C => some 0x0153
    | 0x9E => some 0x017E
    | 0x9F => some 0x0178
    | _ => none

def cp1252Decode : List Nat → List Char × Bool
  | [] => ([], true)
  | b :: rest =>
    match cp1252Map? b with
    | some cp =>
      let r := cp1252Decode rest
      (Char.ofNat cp :: r.1, r.2)
    | none => ([], false)

/-- latin-1 maps every byte to the code point of the same value, so it
never fails. -/
def latin1Decode (bytes : List Nat) : List Char × Bool :=
  (bytes.map (fun b => Char.ofNat (b % 256)), true)

def decodeBytes : PyEncoding → List Nat → List Char × Bool
  | .utf8sig, bytes =>
    match bytes with
    | 0xEF :: 0xBB :: 0xBF :: rest => utf8DecodeCore rest
    | bs => utf8DecodeCore bs
  | .utf8, bytes => utf8DecodeCore bytes
  | .latin1, bytes => latin1Decode bytes
  | .cp1252, bytes => cp1252Decode bytes

/-- Split decoded text into line segments at newline boundaries (the
newline forms these CSV exports use, LF and CRLF); the final element is
the unterminated trailing segment. -/
def splitLinesAux (acc : List Char) : List Char → List (List Char)
  | [] => [acc.reverse]
  | '\r' :: '\n' :: rest => acc.reverse :: splitLinesAux [] rest
  | '\n' :: rest => acc.reverse :: splitLinesAux [] rest
  | c :: rest => splitLinesAux (c :: acc) rest

/-- The complete lines the csv reader sees when a file is read with the
given encoding: when decoding fails partway only lines fully decoded
before the error are yielded (the iteration then raises inside the read),
and on success a trailing newline does not create an extra empty line. -/
def readLines (e : PyEncoding) (bytes : List Nat) : List (List Char) × Bool :=
  let dec := decodeBytes e bytes
  let segs := splitLinesAux [] dec.1
  if dec.2 then
    (if segs.getLast? = some [] then segs.dropLast else segs, true)
  else
    (segs.dropLast, false)

def parseCsvLineAux : List Char → Bool → List Char → List String
  | field, _, [] => [String.mk field.reverse]
  | field, true, '"' :: '"' :: rest => parseCsvLineAux ('"' :: field) true rest
  | field, true, '"' :: rest => parseCsvLineAux field false rest
  | field, true, c :: rest => parseCsvLineAux (c :: field) true rest
  | field, false, '"' :: rest => parseCsvLineAux field true rest
  | field, false, ',' :: rest => String.mk field.reverse :: parseCsvLineAux [] false rest
  | field, false, c :: rest => parseCsvLineAux (c :: field) false rest

/-- csv.reader on one line: an empty line yields no fields, otherwise
comma separated fields with double-quote quoting (fields with embedded
newlines do not occur in these exports and are not modelled). -/
def parseCsvLine (cs : List Char) : List String :=
  match cs with
  | [] => []
  | _ => parseCsvLineAux [] false cs

def encodings_to_try : List PyEncoding :=
  [PyEncoding.utf8sig, PyEncoding.utf8, PyEncoding.latin1, PyEncoding.cp1252]

/-- any(cell.strip() for cell in row). -/
def nonEmptyRow (row : List String) : Bool := row.any (fun cell => stripChars cell.data ≠ [])

/-- The encoding loop of process_single_csv
(src/commands/bandcamp_mails.py lines 318-345).  The records list is
created once before the loop, so rows appended during an attempt that
fails partway stay in the list when the next encoding is tried.  An
attempt that decodes no complete line raises on the header read and falls
through to the next encoding; a complete file with no lines at all returns
a fresh empty list; a fully decoded file returns the accumulated list;
exhausting every encoding raises, modelled as none. -/
def process_single_csv_go (bytes : List Nat) :
    List PyEncoding → List (List (String × String)) → Option (List (List (String × String)))
  | [], _ => none
  | e :: rest, records =>
    let lr := readLines e bytes
    match lr.1 with
    | [] =>
      if lr.2 then some [] else process_single_csv_go bytes rest records
    | headerLine :: body =>
      let header := parseCsvLine headerLine
      let newRecords := records ++
        (body.map parseCsvLine).filterMap
          (fun row => if nonEmptyRow row then some (pyDict (header.zip row)) else none)
      if lr.2 then some newRecords else process_single_csv_go bytes rest newRecords

/-- process_single_csv: records keyed by the header names of the file. -/
def process_single_csv (bytes : List Nat) : Option (List (List (String × String))) :=
  process_single_csv_go bytes encodings_to_try []

/-- The merge state of one mailing consolidation run: the email_data
mapping under construction and the number of datetime.now() readings taken
so far. -/
structure MergeState where
  entries : List (String × EmailEntry)
  clockCalls : Nat
deriving Repr

/-- The body of the merge loop as executed: the identity test comes before
the date parse, so only a row with a non-empty identity and an unparseable
date consumes a clock reading. -/
def build_email_data_step (nowAt : Nat → Nat) (st : MergeState) (row : List String) :
    MergeState :=
  if rowIdentity row = "" then st
  else
    match parseDateAdded (pyStrip (row.getD 4 "")) with
    | some d => { st with entries := mergeStep st.entries (row, d) }
    | none =>
      { entries := mergeStep st.entries (row, nowAt st.clockCalls),
        clockCalls := st.clockCalls + 1 }

/-- The per-file loop of consolidate_csv_files
(src/commands/bandcamp_mails.py lines 461-515): a file whose open raises
(none in the input list, e.g. a permission error) or whose decode fails in
every encoding is logged and skipped, otherwise files_processed is
incremented and the records, realigned by header name, are folded into the
running merge state. -/
def processMailingFile (nowAt : Nat → Nat) (st : MergeState × Nat)
    (file : Option (List Nat)) : MergeState × Nat :=
  match file with
  | none => st
  | some bytes =>
    match process_single_csv bytes with
    | none => st
    | some records =>
      (records.foldl (fun s r => build_email_data_step nowAt s (alignRow r)) st.1,
       st.2 + 1)

/-- One mailing consolidation run over the discovered files: the final
merge state and the files_processed count.  The run is a total function:
no per-file failure escapes to the caller. -/
def consolidate_mailing_run (nowAt : Nat → Nat) (files : List (Option (List Nat))) :
    MergeState × Nat :=
  files.foldl (processMailingFile nowAt) (⟨[], 0⟩, 0)

/-- The 23 canonical revenue report columns declared in
consolidate_csv_files of src/commands/bandcamp_reports.py. -/
def revenue_full_headers : List String :=
  ["Cat no.", "UPC", "ISRC", "SKU", "Item type", "Item name", "Container name",
   "Package", "Artist name", "Label name", "Region", "Quantity", "Currency",
   "Gross revenue", "Shipping", "Taxes", "Bandcamp assessed revenue share",
   "Collection society share", "Payment processor fees", "Net revenue", "URL",
   "Transaction date from", "Transaction date to"]

/-- The columns excluded from the flat consolidated file but kept in the
database. -/
def columns_to_exclude : List String :=
  ["UPC", "ISRC", "SKU", "Collection society share", "Container name", "URL",
   "Transaction date from", "Transaction date to"]

/-- The filtered header row written once at the top of the flat file. -/
def revenue_kept_headers : List String :=
  revenue_full_headers.filter (fun c => !(columns_to_exclude.contains c))

/-- Pad a parsed row with empty strings to the canonical column count and
truncate extra trailing fields, as the row loop of consolidate_csv_files
does before using the row. -/
def padTruncRevenue (row : List String) : List String :=
  (row ++ List.replicate (revenue_full_headers.length - row.length) "").take
    revenue_full_headers.length

/-- The per-row column filter used for the flat file: a cell is kept when
its position is inside the canonical header list and the canonical name at
that position is not excluded. -/
def filterRevenueRow (row : List String) : List String :=
  (row.enum.filter
      (fun ic => ic.1 < revenue_full_headers.length &&
        !(columns_to_exclude.contains (revenue_full_headers.getD ic.1 "")))).map Prod.snd

/-- A row of the revenue_reports table: its 23 source fields and the run
provenance that insert_revenue_data attaches (declared date range and
originating file).  The numeric columns are kept as their source strings
here; only whether their coercion succeeds is observable in the stated
properties. -/
structure RevDbRow where
  fields : List String
  date_range_begin : String
  date_range_end : String
  source_file : String
deriving Repr, DecidableEq

/-- int(row[11]) accepted (empty coerces to 0). -/
def intFieldOk (s : String) : Bool := stripChars s.data = [] || (pyInt? s).isSome

/-- float(row[i]) accepted (empty coerces to 0.0). -/
def floatFieldOk (s : String) : Bool := stripChars s.data = [] || pyFloatAccepts s

/-- Whether the numeric coercions of insert_revenue_data
(src/commands/bandcamp_reports.py lines 385-397) all succeed on a row:
the integer quantity at index 11 and the seven float amounts at indexes
13 through 19. -/
def revenueNumericOk (row : List String) : Bool :=
  intFieldOk (row.getD 11 "") &&
  floatFieldOk (row.getD 13 "") && floatFieldOk (row.getD 14 "") &&
  floatFieldOk (row.getD 15 "") && floatFieldOk (row.getD 16 "") &&
  floatFieldOk (row.getD 17 "") && floatFieldOk (row.getD 18 "") &&
  floatFieldOk (row.getD 19 "")

/-- insert_revenue_data (src/commands/bandcamp_reports.py lines 371-426):
a plain INSERT per row, tagged with the declared date range and source
file; a row whose numeric coercion raises is skipped with a warning and
the loop continues.  There is no uniqueness constraint, so the table only
ever grows. -/
def insert_revenue_data (db : List RevDbRow) (rows : List (List String))
    (dateB dateE src : String) : List RevDbRow :=
  db ++ (rows.filter revenueNumericOk).map
    (fun r => { fields := r, date_range_begin := dateB, date_range_end := dateE,
                source_file := src })

/-- The state of one revenue consolidation run: the flat file rows written
so far, the database, and the two counters the final report prints. -/
structure RevenueRunState where
  flat : List (List String)
  db : List RevDbRow
  files_processed : Nat
  total_rows : Nat
deriving Repr, DecidableEq

/-- The encoding probe of the revenue reader: an encoding is accepted when
reading the first line does not raise, i.e. the whole file decodes or at
least one complete line precedes the error. -/
def firstLineOk (e : PyEncoding) (bytes : List Nat) : Bool :=
  let dec := decodeBytes e bytes
  dec.2 || dec.1.contains '\n'

def pickEncoding (bytes : List Nat) : Option PyEncoding :=
  encodings_to_try.find? (fun e => firstLineOk e bytes)

/-- The inner body of the revenue file loop once the lines the chosen
encoding yields are known (lines, whole-file flag): an empty file or a
file whose header read raises is skipped; otherwise every complete
non-empty data row is padded, written to the flat file and collected, and
only if the whole file decoded are the collected rows inserted into the
database and files_processed incremented.  The header line is only
compared for the mismatch warning, never used for parsing. -/
def revenueProcessLines (dateB dateE : String) (st : RevenueRunState) (src : String)
    (lines : List (List Char)) (ok : Bool) : RevenueRunState :=
  match lines with
  | [] => st
  | _headerLine :: body =>
    let rows := ((body.map parseCsvLine).filter nonEmptyRow).map padTruncRevenue
    let st2 : RevenueRunState :=
      { st with flat := st.flat ++ rows.map filterRevenueRow,
                total_rows := st.total_rows + rows.length }
    if ok then
      { st2 with db := insert_revenue_data st2.db rows dateB dateE src,
                 files_processed := st2.files_processed + 1 }
    else st2

/-- Processing of one revenue file inside consolidate_csv_files
(src/commands/bandcamp_reports.py lines 506-616): the encoding is chosen
by the first-line probe, rows are streamed to the flat file as they are
read, and any failure is logged and the loop continues with the next
file.  A decode failure after the probe leaves the rows already written in
the flat file while the database insert and the files_processed increment
never happen. -/
def revenueProcessFile (dateB dateE : String) (st : RevenueRunState)
    (file : List Nat × String) : RevenueRunState :=
  match pickEncoding file.1 with
  | none => st
  | some e =>
    let lr := readLines e file.1
    revenueProcessLines dateB dateE st file.2 lr.1 lr.2

/-- One revenue consolidation run (src/commands/bandcamp_reports.py lines
429-630) over the discovered files, starting from the filtered header row
already written to the flat file and the database contents left by prior
runs. -/
def consolidate_revenue_files (dateB dateE : String) (db0 : List RevDbRow)
    (files : List (List Nat × String)) : RevenueRunState :=
  files.foldl (revenueProcessFile dateB dateE) ⟨[revenue_kept_headers], db0, 0, 0⟩

/-- The flat writer opens the destination in write mode and streams rows
directly to it (write_consolidated_csv and the revenue writer both do);
the environment may fail after any number of rows, e.g. on a full disk, in
which case exactly the rows already written remain on disk.  There is no
temporary file and no rename step in either writer. -/
def writeRowsToDisk (fault : Option Nat) (rows : List (List String)) :
    List (List String) × Bool :=
  match fault with
  | none => (rows, true)
  | some k => (rows.take k, false)

/-! ### Association list lemmas -/

theorem lookupE_eq_none_iff {st : List (String × EmailEntry)} {e : String} :
    lookupE st e = none ↔ ∀ kv ∈ st, kv.1 ≠ e := by
  induction st with
  | nil => simp [lookupE]
  | cons kv rest ih =>
    by_cases h : kv.1 = e <;> simp [lookupE, h, ih]

theorem lookupE_isSome_iff {st : List (String × EmailEntry)} {e : String} :
    (lookupE st e).isSome ↔ e ∈ st.map Prod.fst := by
  induction st with
  | nil => simp [lookupE]
  | cons kv rest ih =>
    by_cases h : kv.1 = e
    · simp [lookupE, h]
    · simp only [lookupE, if_neg h, List.map_cons, List.mem_cons, ih]
      constructor
      · exact fun hh => Or.inr hh
      · rintro (hh | hh)
        · exact absurd hh.symm h
        · exact hh

theorem lookupE_append_left {st st2 : List (String × EmailEntry)} {e : String}
    {en : EmailEntry} (h : lookupE st e = some en) :
    lookupE (st ++ st2) e = some en := by
  induction st with
  | nil => simp [lookupE] at h
  | cons kv rest ih =>
    by_cases hk : kv.1 = e <;> simp [lookupE, hk] at h ⊢ <;> simp_all

theorem lookupE_append_right {st st2 : List (String × EmailEntry)} {e : String}
    (h : lookupE st e = none) :
    lookupE (st ++ st2) e = lookupE st2 e := by
  induction st with
  | nil => simp
  | cons kv rest ih =>
    by_cases hk : kv.1 = e
    · simp [lookupE, hk] at h
    · simp only [lookupE, if_neg hk] at h
      simpa [lookupE, hk] using ih h

theorem map_fst_updateE {st : List (String × EmailEntry)} {e : String} {v : EmailEntry}
    (h : (lookupE st e).isSome) :
    (updateE st e v).map Prod.fst = st.map Prod.fst := by
  induction st with
  | nil => simp [lookupE] at h
  | cons kv rest ih =>
    by_cases hk : kv.1 = e
    · simp [updateE, hk]
    · simp [lookupE, hk] at h
      simp [updateE, hk, ih h]

theorem lookupE_updateE_self {st : List (String × EmailEntry)} {e : String}
    {v : EmailEntry} (h : (lookupE st e).isSome) :
    lookupE (updateE st e v) e = some v := by
  induction st with
  | nil => simp [lookupE] at h
  | cons kv rest ih =>
    by_cases hk : kv.1 = e
    · simp [updateE, hk, lookupE]
    · simp [lookupE, hk] at h
      simp [updateE, hk, lookupE, ih h]

theorem lookupE_updateE_ne {st : List (String × EmailEntry)} {e e2 : String}
    {v : EmailEntry} (h : e2 ≠ e) :
    lookupE (updateE st e v) e2 = lookupE st e2 := by
  induction st with
  | nil => simp [updateE]
  | cons kv rest ih =>
    by_cases hk : kv.1 = e
    · rw [updateE, if_pos hk, lookupE, lookupE, if_neg (fun hh : e = e2 => h hh.symm),
        if_neg (fun hh : kv.1 = e2 => h (hh.symm.trans hk))]
    · rw [updateE, if_neg hk, lookupE, lookupE]
      by_cases hk2 : kv.1 = e2
      · rw [if_pos hk2, if_pos hk2]
      · rw [if_neg hk2, if_neg hk2, ih]

/-! ### Characterization of the merge map -/

/-- The per-identity content of the merge map over an annotated row
stream: the stored total is the sum of the purchase counts of every row of
that identity, and the stored field values and date are those of a
contributing row whose assigned date is minimal among all rows of that
identity. -/
def EntryCharAt (l : List (List String × Nat)) (e : String) (en : EmailEntry) : Prop :=
  en.total_purchases =
    ((l.filter (fun rd => rowIdentity rd.1 = e)).map
      (fun rd => parsePurchases (rd.1.getD 7 ""))).sum ∧
  ∃ rd, rd ∈ l ∧ rowIdentity rd.1 = e ∧ en.record = rd.1 ∧ en.parsed_date = rd.2 ∧
    ∀ rd2 ∈ l, rowIdentity rd2.1 = e → rd.2 ≤ rd2.2

/-- What the email_data mapping built from an annotated row stream
satisfies: keys are unique, a key is present exactly for each non-empty
identity occurring in the stream, and each entry has the per-identity
content described by EntryCharAt. -/
def MergeChar (l : List (List String × Nat)) (st : List (String × EmailEntry)) : Prop :=
  (st.map Prod.fst).Nodup ∧
  (∀ e, (lookupE st e).isSome ↔ (e ≠ "" ∧ ∃ rd ∈ l, rowIdentity rd.1 = e)) ∧
  (∀ e en, lookupE st e = some en → EntryCharAt l e en)

theorem filter_append_singleton_of_ne {l : List (List String × Nat)}
    {rd : List String × Nat} {e : String} (hne : rowIdentity rd.1 ≠ e) :
    (l ++ [rd]).filter (fun rd2 => rowIdentity rd2.1 = e) =
      l.filter (fun rd2 => rowIdentity rd2.1 = e) := by
  rw [List.filter_append]
  simp [List.filter, hne]

theorem entryCharAt_extend {l : List (List String × Nat)} {rd : List String × Nat}
    {e : String} {en : EmailEntry} (hne : rowIdentity rd.1 ≠ e)
    (h : EntryCharAt l e en) : EntryCharAt (l ++ [rd]) e en := by
  obtain ⟨ht, rw0, hm0, hid0, hr0, hd0, hmin0⟩ := h
  refine ⟨by rw [filter_append_singleton_of_ne hne]; exact ht,
    rw0, List.mem_append_left _ hm0, hid0, hr0, hd0, ?_⟩
  intro rd2 hm2 hid2
  rcases List.mem_append.mp hm2 with hm3 | hm3
  · exact hmin0 rd2 hm3 hid2
  · simp only [List.mem_singleton] at hm3
    exact absurd (hm3 ▸ hid2) hne

theorem mergeChar_nil : MergeChar [] [] := by
  refine ⟨by simp, fun e => by simp [lookupE], fun e en h => by simp [lookupE] at h⟩

theorem mergeStep_empty {st : List (String × EmailEntry)} {rd : List String × Nat}
    (he : rowIdentity rd.1 = "") : mergeStep st rd = st := by
  simp [mergeStep, he]

theorem mergeStep_new {st : List (String × EmailEntry)} {rd : List String × Nat}
    (he : rowIdentity rd.1 ≠ "") (hl : lookupE st (rowIdentity rd.1) = none) :
    mergeStep st rd =
      st ++ [(rowIdentity rd.1, ⟨rd.1, rd.2, parsePurchases (rd.1.getD 7 "")⟩)] := by
  simp [mergeStep, he, hl]

theorem mergeStep_replace {st : List (String × EmailEntry)} {rd : List String × Nat}
    {ex : EmailEntry} (he : rowIdentity rd.1 ≠ "")
    (hl : lookupE st (rowIdentity rd.1) = some ex) (hlt : rd.2 < ex.parsed_date) :
    mergeStep st rd =
      updateE st (rowIdentity rd.1)
        ⟨rd.1, rd.2, ex.total_purchases + parsePurchases (rd.1.getD 7 "")⟩ := by
  simp [mergeStep, he, hl, hlt]

theorem mergeStep_keep {st : List (String × EmailEntry)} {rd : List String × Nat}
    {ex : EmailEntry} (he : rowIdentity rd.1 ≠ "")
    (hl : lookupE st (rowIdentity rd.1) = some ex) (hlt : ¬ rd.2 < ex.parsed_date) :
    mergeStep st rd =
      updateE st (rowIdentity rd.1)
        ⟨ex.record, ex.parsed_date, ex.total_purchases + parsePurchases (rd.1.getD 7 "")⟩ := by
  simp [mergeStep, he, hl, hlt]

theorem mergeChar_step {l : List (List String × Nat)} {st : List (String × EmailEntry)}
    (hc : MergeChar l st) (rd : List String × Nat) :
    MergeChar (l ++ [rd]) (mergeStep st rd) := by
  obtain ⟨hnd, hiff, hchar⟩ := hc
  by_cases he : rowIdentity rd.1 = ""
  · rw [mergeStep_empty he]
    refine ⟨hnd, fun e => ?_, fun e en hl => ?_⟩
    · rw [hiff e]
      constructor
      · rintro ⟨hne, rd2, hm, hid⟩
        exact ⟨hne, rd2, List.mem_append_left _ hm, hid⟩
      · rintro ⟨hne, rd2, hm, hid⟩
        rcases List.mem_append.mp hm with hm2 | hm2
        · exact ⟨hne, rd2, hm2, hid⟩
        · simp only [List.mem_singleton] at hm2
          exact absurd (hid.symm.trans (hm2 ▸ he)) hne
    · have hne : e ≠ "" := ((hiff e).mp (by simp [hl])).1
      exact entryCharAt_extend (fun hh => hne (hh.symm.trans he)) (hchar e en hl)
  · have hfilterself :
        (l ++ [rd]).filter (fun rd2 => rowIdentity rd2.1 = rowIdentity rd.1) =
          l.filter (fun rd2 => rowIdentity rd2.1 = rowIdentity rd.1) ++ [rd] := by
      rw [List.filter_append]
      simp [List.filter]
    cases hl0 : lookupE st (rowIdentity rd.1) with
    | none =>
      rw [mergeStep_new he hl0]
      have hnotin : rowIdentity rd.1 ∉ st.map Prod.fst := by
        intro hmem
        have h2 := lookupE_isSome_iff.mpr hmem
        rw [hl0] at h2
        simp at h2
      have hnol : ∀ rd2 ∈ l, rowIdentity rd2.1 ≠ rowIdentity rd.1 := by
        intro rd2 hm2 hid2
        have h2 := (hiff (rowIdentity rd.1)).mpr ⟨he, rd2, hm2, hid2⟩
        rw [hl0] at h2
        simp at h2
      have hfilternil :
          l.filter (fun rd2 => rowIdentity rd2.1 = rowIdentity rd.1) = [] := by
        rw [List.filter_eq_nil_iff]
        intro rd2 hm2
        simp [hnol rd2 hm2]
      have hstepNe : ∀ e, e ≠ rowIdentity rd.1 →
          lookupE (st ++ [(rowIdentity rd.1,
            ⟨rd.1, rd.2, parsePurchases (rd.1.getD 7 "")⟩)]) e = lookupE st e := by
        intro e hee
        cases hl2 : lookupE st e with
        | some v => exact lookupE_append_left hl2
        | none =>
          rw [lookupE_append_right hl2, lookupE, if_neg (fun hh => hee hh.symm), lookupE]
      refine ⟨?_, fun e => ?_, fun e en hl => ?_⟩
      · simp only [List.map_append, List.map_cons, List.map_nil]
        rw [List.nodup_append]
        exact ⟨hnd, List.nodup_singleton _, by simpa using hnotin⟩
      · by_cases hee : e = rowIdentity rd.1
        · subst hee
          rw [lookupE_append_right hl0, lookupE, if_pos rfl]
          simp only [Option.isSome_some, true_iff]
          exact ⟨he, rd, List.mem_append_right _ (by simp), rfl⟩
        · rw [hstepNe e hee, hiff e]
          constructor
          · rintro ⟨hne2, rd2, hm, hid⟩
            exact ⟨hne2, rd2, List.mem_append_left _ hm, hid⟩
          · rintro ⟨hne2, rd2, hm, hid⟩
            rcases List.mem_append.mp hm with hm2 | hm2
            · exact ⟨hne2, rd2, hm2, hid⟩
            · simp only [List.mem_singleton] at hm2
              exact absurd (hm2 ▸ hid) (fun hh => hee hh.symm)
      · by_cases hee : e = rowIdentity rd.1
        · subst hee
          rw [lookupE_append_right hl0, lookupE, if_pos rfl] at hl
          have hen : en = ⟨rd.1, rd.2, parsePurchases (rd.1.getD 7 "")⟩ := by
            injection hl with hh
            exact hh.symm
          subst hen
          refine ⟨?_, rd, List.mem_append_right _ (by simp), rfl, rfl, rfl, ?_⟩
          · rw [hfilterself, hfilternil]
            simp
          · intro rd2 hm2 hid2
            rcases List.mem_append.mp hm2 with hm3 | hm3
            · exact absurd hid2 (hnol rd2 hm3)
            · simp only [List.mem_singleton] at hm3
              rw [hm3]
        · rw [hstepNe e hee] at hl
          exact entryCharAt_extend (fun hh => hee hh.symm) (hchar e en hl)
    | some ex =>
      have hsome : (lookupE st (rowIdentity rd.1)).isSome := by rw [hl0]; rfl
      obtain ⟨htex, rw0, hm0, hid0, hr0, hd0, hmin0⟩ := hchar (rowIdentity rd.1) ex hl0
      have hsum :
          ex.total_purchases + parsePurchases (rd.1.getD 7 "") =
            (((l ++ [rd]).filter (fun rd2 => rowIdentity rd2.1 = rowIdentity rd.1)).map
              (fun rd2 => parsePurchases (rd2.1.getD 7 ""))).sum := by
        rw [hfilterself, List.map_append, List.sum_append, ← htex]
        simp
      have hcharNe : ∀ e en, e ≠ rowIdentity rd.1 → ∀ v : EmailEntry,
          lookupE (updateE st (rowIdentity rd.1) v) e = some en →
            EntryCharAt (l ++ [rd]) e en := by
        intro e en hee v hl
        rw [lookupE_updateE_ne hee] at hl
        exact entryCharAt_extend (fun hh => hee hh.symm) (hchar e en hl)
      have hiffNew : ∀ v : EmailEntry, ∀ e,
          (lookupE (updateE st (rowIdentity rd.1) v) e).isSome ↔
            (e ≠ "" ∧ ∃ rd2 ∈ l ++ [rd], rowIdentity rd2.1 = e) := by
        intro v e
        by_cases hee : e = rowIdentity rd.1
        · subst hee
          rw [lookupE_updateE_self hsome]
          simp only [Option.isSome_some, true_iff]
          exact ⟨he, rd, List.mem_append_right _ (by simp), rfl⟩
        · rw [lookupE_updateE_ne hee, hiff e]
          constructor
          · rintro ⟨hne2, rd2, hm, hid⟩
            exact ⟨hne2, rd2, List.mem_append_left _ hm, hid⟩
          · rintro ⟨hne2, rd2, hm, hid⟩
            rcases List.mem_append.mp hm with hm2 | hm2
            · exact ⟨hne2, rd2, hm2, hid⟩
            · simp only [List.mem_singleton] at hm2
              exact absurd (hm2 ▸ hid) (fun hh => hee hh.symm)
      by_cases hlt : rd.2 < ex.parsed_date
      · rw [mergeStep_replace he hl0 hlt]
        refine ⟨by rw [map_fst_updateE hsome]; exact hnd, hiffNew _, fun e en hl => ?_⟩
        by_cases hee : e = rowIdentity rd.1
        · subst hee
          rw [lookupE_updateE_self hsome] at hl
          have hen : en = ⟨rd.1, rd.2,
              ex.total_purchases + parsePurchases (rd.1.getD 7 "")⟩ := by
            injection hl with hh
            exact hh.symm
          subst hen
          refine ⟨by simpa using hsum, rd, List.mem_append_right _ (by simp),
            rfl, rfl, rfl, ?_⟩
          intro rd2 hm2 hid2
          rcases List.mem_append.mp hm2 with hm3 | hm3
          · exact Nat.le_of_lt (Nat.lt_of_lt_of_le (hd0 ▸ hlt) (hmin0 rd2 hm3 hid2))
          · simp only [List.mem_singleton] at hm3
            rw [hm3]
        · exact hcharNe e en hee _ hl
      · rw [mergeStep_keep he hl0 hlt]
        refine ⟨by rw [map_fst_updateE hsome]; exact hnd, hiffNew _, fun e en hl => ?_⟩
        by_cases hee : e = rowIdentity rd.1
        · subst hee
          rw [lookupE_updateE_self hsome] at hl
          have hen : en = ⟨ex.record, ex.parsed_date,
              ex.total_purchases + parsePurchases (rd.1.getD 7 "")⟩ := by
            injection hl with hh
            exact hh.symm
          subst hen
          refine ⟨by simpa using hsum, rw0, List.mem_append_left _ hm0,
            hid0, hr0, hd0, ?_⟩
          intro rd2 hm2 hid2
          rcases List.mem_append.mp hm2 with hm3 | hm3
          · exact hmin0 rd2 hm3 hid2
          · simp only [List.mem_singleton] at hm3
            rw [hm3, ← hd0]
            exact Nat.le_of_not_lt hlt
        · exact hcharNe e en hee _ hl

theorem mergeRows_char (l : List (List String × Nat)) : MergeChar l (mergeRows l) := by
  induction l using List.reverseRecOn with
  | nil => exact mergeChar_nil
  | append_singleton l rd ih =>
    have : mergeRows (l ++ [rd]) = mergeStep (mergeRows l) rd := by
      rw [mergeRows, mergeRows, List.foldl_append]
      rfl
    rw [this]
    exact mergeChar_step ih rd

/-! ### Properties of the date assignment -/

theorem assignDates_map_fst (nowAt : Nat → Nat) (rows : List (List String)) (k : Nat) :
    (assignDates nowAt rows k).map Prod.fst = rows := by
  induction rows generalizing k with
  | nil => simp [assignDates]
  | cons row rest ih =>
    rw [assignDates]
    by_cases he : rowIdentity row = ""
    · simp [he, ih]
    · cases hp : parseDateAdded (pyStrip (row.getD 4 "")) <;> simp [he, hp, ih]

theorem assignDates_mem_spec {nowAt : Nat → Nat} {rows : List (List String)} {k : Nat}
    {rd : List String × Nat} (hm : rd ∈ assignDates nowAt rows k) :
    rd.1 ∈ rows ∧ (rowIdentity rd.1 ≠ "" →
      (parseDateAdded (pyStrip (rd.1.getD 4 "")) = some rd.2 ∨
        (parseDateAdded (pyStrip (rd.1.getD 4 "")) = none ∧
          ∃ j, j < k + rows.length ∧ rd.2 = nowAt j))) := by
  induction rows generalizing k with
  | nil => simp [assignDates] at hm
  | cons row rest ih =>
    rw [assignDates] at hm
    by_cases he : rowIdentity row = ""
    · rw [if_pos he] at hm
      rcases List.mem_cons.mp hm with hh | hh
      · subst hh
        exact ⟨by simp, fun hne => absurd he hne⟩
      · obtain ⟨h1, h2⟩ := ih hh
        refine ⟨List.mem_cons_of_mem _ h1, fun hne => ?_⟩
        rcases h2 hne with h3 | ⟨h3, j, hj, h4⟩
        · exact Or.inl h3
        · refine Or.inr ⟨h3, j, ?_, h4⟩
          simp only [List.length_cons]
          omega
    · rw [if_neg he] at hm
      cases hp : parseDateAdded (pyStrip (row.getD 4 "")) with
      | some d =>
        rw [hp] at hm
        rcases List.mem_cons.mp hm with hh | hh
        · subst hh
          exact ⟨by simp, fun _ => Or.inl hp⟩
        · obtain ⟨h1, h2⟩ := ih hh
          refine ⟨List.mem_cons_of_mem _ h1, fun hne => ?_⟩
          rcases h2 hne with h3 | ⟨h3, j, hj, h4⟩
          · exact Or.inl h3
          · refine Or.inr ⟨h3, j, ?_, h4⟩
            simp only [List.length_cons]
            omega
      | none =>
        rw [hp] at hm
        rcases List.mem_cons.mp hm with hh | hh
        · subst hh
          refine ⟨by simp, fun _ => Or.inr ⟨hp, k, ?_, rfl⟩⟩
          simp
        · obtain ⟨h1, h2⟩ := ih hh
          refine ⟨List.mem_cons_of_mem _ h1, fun hne => ?_⟩
          rcases h2 hne with h3 | ⟨h3, j, hj, h4⟩
          · exact Or.inl h3
          · refine Or.inr ⟨h3, j, ?_, h4⟩
            calc j < (k + 1) + rest.length := hj
            _ = k + (rest.length + 1) := by omega
            _ = k + (row :: rest).length := by simp

theorem assignDates_valid_mem {nowAt : Nat → Nat} {rows : List (List String)}
    {row : List String} {d : Nat} (hm : row ∈ rows) (hne : rowIdentity row ≠ "")
    (hp : parseDateAdded (pyStrip (row.getD 4 "")) = some d) (k : Nat) :
    (row, d) ∈ assignDates nowAt rows k := by
  induction rows generalizing k with
  | nil => simp at hm
  | cons row2 rest ih =>
    rw [assignDates]
    rcases List.mem_cons.mp hm with hh | hh
    · subst hh
      rw [if_neg hne, hp]
      exact List.mem_cons_self _ _
    · by_cases he2 : rowIdentity row2 = ""
      · rw [if_pos he2]
        exact List.mem_cons_of_mem _ (ih hh k)
      · rw [if_neg he2]
        cases hp2 : parseDateAdded (pyStrip (row2.getD 4 "")) <;>
          exact List.mem_cons_of_mem _ (ih hh _)

theorem filter_counts_through_fst (al : List (List String × Nat)) (e : String) :
    ((al.filter (fun rd => rowIdentity rd.1 = e)).map
        (fun rd => parsePurchases (rd.1.getD 7 ""))) =
      (((al.map Prod.fst).filter (fun row => rowIdentity row = e)).map
        (fun row => parsePurchases (row.getD 7 ""))) := by
  induction al with
  | nil => simp
  | cons rd rest ih =>
    rw [List.map_cons, List.filter_cons, List.filter_cons]
    by_cases hp : rowIdentity rd.1 = e
    · rw [if_pos (decide_eq_true hp), if_pos (decide_eq_true hp), List.map_cons,
        List.map_cons, ih]
    · rw [if_neg (fun hb => hp (of_decide_eq_true hb)),
        if_neg (fun hb => hp (of_decide_eq_true hb)), ih]

/-! ### C1: earliest wins with summed purchases -/

/-- C1: over any finite stream of mailing-list rows, processed in any file
and row order, the merge map assigns each non-empty identity exactly one
entry (the key list has no duplicates and an identity is present exactly
when some row of the stream carries it), and each entry holds the field
values of a single contributing row whose assigned date is earliest among
all rows sharing the identity, together with a purchase total equal to the
sum of the parsed counts of every such row. -/
theorem mailing_merge_earliest_wins_and_sums (nowAt : Nat → Nat)
    (rows : List (List String)) :
    ((consolidate_mailing nowAt rows).map Prod.fst).Nodup ∧
    (∀ e, (lookupE (consolidate_mailing nowAt rows) e).isSome ↔
      (e ≠ "" ∧ ∃ row ∈ rows, rowIdentity row = e)) ∧
    (∀ e en, lookupE (consolidate_mailing nowAt rows) e = some en →
      en.total_purchases =
        ((rows.filter (fun row => rowIdentity row = e)).map
          (fun row => parsePurchases (row.getD 7 ""))).sum ∧
      ∃ rd, rd ∈ assignDates nowAt rows 0 ∧ rowIdentity rd.1 = e ∧
        en.record = rd.1 ∧ en.parsed_date = rd.2 ∧
        ∀ rd2 ∈ assignDates nowAt rows 0, rowIdentity rd2.1 = e → rd.2 ≤ rd2.2) := by
  obtain ⟨hnd, hiff, hchar⟩ := mergeRows_char (assignDates nowAt rows 0)
  simp only [consolidate_mailing]
  refine ⟨hnd, fun e => ?_, fun e en hl => ?_⟩
  · rw [hiff e]
    constructor
    · rintro ⟨hne, rd, hm, hid⟩
      exact ⟨hne, rd.1, (assignDates_mem_spec hm).1, hid⟩
    · rintro ⟨hne, row, hm, hid⟩
      have hm2 : row ∈ (assignDates nowAt rows 0).map Prod.fst := by
        rw [assignDates_map_fst]
        exact hm
      obtain ⟨rd, hrd, hfst⟩ := List.mem_map.mp hm2
      exact ⟨hne, rd, hrd, by rw [hfst, hid]⟩
  · obtain ⟨ht, rd, hm, hid, hr, hd, hmin⟩ := hchar e en hl
    refine ⟨?_, rd, hm, hid, hr, hd, hmin⟩
    rw [ht, filter_counts_through_fst, assignDates_map_fst]

/-- C1 witness: the specification example, two rows for the same address
with dates Jan 01 2025 (3 purchases) and Jan 05 2025 (2 purchases): the
merged entry carries the Jan 01 row and the total 5. -/
theorem mailing_merge_earliest_wins_and_sums_witness :
    (⟨["a@x.com", "Bob", "B", "Z", "Jan 01 2025 10:00 AM UTC", "FR", "22222", "3"],
        dateToMinutes 2025 1 1 10 0, 5⟩ : EmailEntry).total_purchases =
      (([["a@x.com", "Amy", "A", "Y", "Jan 05 2025 10:00 AM UTC", "US", "11111", "2"],
          ["a@x.com", "Bob", "B", "Z", "Jan 01 2025 10:00 AM UTC", "FR", "22222", "3"]].filter
            (fun row => rowIdentity row = "a@x.com")).map
        (fun row => parsePurchases (row.getD 7 ""))).sum ∧
    ∃ rd, rd ∈ assignDates (fun _ => 0)
        [["a@x.com", "Amy", "A", "Y", "Jan 05 2025 10:00 AM UTC", "US", "11111", "2"],
         ["a@x.com", "Bob", "B", "Z", "Jan 01 2025 10:00 AM UTC", "FR", "22222", "3"]] 0 ∧
      rowIdentity rd.1 = "a@x.com" ∧
      (⟨["a@x.com", "Bob", "B", "Z", "Jan 01 2025 10:00 AM UTC", "FR", "22222", "3"],
          dateToMinutes 2025 1 1 10 0, 5⟩ : EmailEntry).record = rd.1 ∧
      (⟨["a@x.com", "Bob", "B", "Z", "Jan 01 2025 10:00 AM UTC", "FR", "22222", "3"],
          dateToMinutes 2025 1 1 10 0, 5⟩ : EmailEntry).parsed_date = rd.2 ∧
      ∀ rd2 ∈ assignDates (fun _ => 0)
          [["a@x.com", "Amy", "A", "Y", "Jan 05 2025 10:00 AM UTC", "US", "11111", "2"],
           ["a@x.com", "Bob", "B", "Z", "Jan 01 2025 10:00 AM UTC", "FR", "22222", "3"]] 0,
        rowIdentity rd2.1 = "a@x.com" → rd.2 ≤ rd2.2 :=
  (mailing_merge_earliest_wins_and_sums (fun _ => 0)
      [["a@x.com", "Amy", "A", "Y", "Jan 05 2025 10:00 AM UTC", "US", "11111", "2"],
       ["a@x.com", "Bob", "B", "Z", "Jan 01 2025 10:00 AM UTC", "FR", "22222", "3"]]).2.2
    "a@x.com"
    ⟨["a@x.com", "Bob", "B", "Z", "Jan 01 2025 10:00 AM UTC", "FR", "22222", "3"],
      dateToMinutes 2025 1 1 10 0, 5⟩
    (by decide)

/-! ### C2: malformed dates and the earliest comparison -/

/-- C2 counterexample: an identity with a validly dated row (a future date,
Jan 01 2030) and a malformed row (date field garbage) whose substituted
wall-clock reading is earlier than the parsed date.  The merged entry
stores the MALFORMED row as winner, so a malformed date can beat a valid
one: the code substitutes datetime.now(), which only loses the earliest
comparison when every valid date lies in the past. -/
theorem malformed_date_wins_cex :
    lookupE (consolidate_mailing (fun k => k)
        [["a@x.com", "V", "", "", "Jan 01 2030 10:00 AM UTC", "", "", "3"],
         ["a@x.com", "M", "", "", "garbage", "", "", "2"]]) "a@x.com" =
      some ⟨["a@x.com", "M", "", "", "garbage", "", "", "2"], 0, 5⟩ ∧
    parseDateAdded "garbage" = none ∧
    (parseDateAdded "Jan 01 2030 10:00 AM UTC").isSome := by decide

/-- C2 (amended): for an identity having at least one validly dated row,
if every substituted wall-clock reading of the run is later than every
valid parsed date of that identity (as holds whenever the date added
values lie in the past), then the merged entry holds the field values of a
validly dated row, while the counts of all rows, malformed ones included,
are still accumulated into the total. -/
theorem malformed_date_never_beats_valid_of_past_dates (nowAt : Nat → Nat)
    (rows : List (List String)) (e : String) (en : EmailEntry)
    (hlk : lookupE (consolidate_mailing nowAt rows) e = some en)
    (hvalid : ∃ row ∈ rows, rowIdentity row = e ∧
      (parseDateAdded (pyStrip (row.getD 4 ""))).isSome)
    (hpast : ∀ row ∈ rows, rowIdentity row = e →
      ∀ d, parseDateAdded (pyStrip (row.getD 4 "")) = some d →
        ∀ k, k < rows.length → d < nowAt k) :
    (∃ row ∈ rows, rowIdentity row = e ∧
      parseDateAdded (pyStrip (row.getD 4 "")) = some en.parsed_date ∧
      en.record = row) ∧
    en.total_purchases =
      ((rows.filter (fun row => rowIdentity row = e)).map
        (fun row => parsePurchases (row.getD 7 ""))).sum := by
  obtain ⟨hnd, hiff, hchar⟩ := mergeRows_char (assignDates nowAt rows 0)
  have hlk2 : lookupE (mergeRows (assignDates nowAt rows 0)) e = some en := hlk
  have hne : e ≠ "" := ((hiff e).mp (by simp [hlk2])).1
  obtain ⟨ht, rd, hm, hid, hr, hd, hmin⟩ := hchar e en hlk2
  have htot : en.total_purchases =
      ((rows.filter (fun row => rowIdentity row = e)).map
        (fun row => parsePurchases (row.getD 7 ""))).sum := by
    rw [ht, filter_counts_through_fst, assignDates_map_fst]
  obtain ⟨hm1, hspec⟩ := assignDates_mem_spec hm
  have hidne : rowIdentity rd.1 ≠ "" := by
    rw [hid]
    exact hne
  rcases hspec hidne with hvalidrd | ⟨hnone, j, hj, hjeq⟩
  · refine ⟨⟨rd.1, hm1, hid, ?_, hr⟩, htot⟩
    rw [hd]
    exact hvalidrd
  · exfalso
    obtain ⟨rv, hmv, hidv, hpv⟩ := hvalid
    obtain ⟨dv, hdv⟩ := Option.isSome_iff_exists.mp hpv
    have hidvne : rowIdentity rv ≠ "" := by
      rw [hidv]
      exact hne
    have hmemv : (rv, dv) ∈ assignDates nowAt rows 0 :=
      assignDates_valid_mem hmv hidvne hdv 0
    have hle : rd.2 ≤ dv := hmin (rv, dv) hmemv hidv
    have hlt : dv < nowAt j := hpast rv hmv hidv dv hdv j (by simpa using hj)
    rw [← hjeq] at hlt
    exact absurd (Nat.lt_of_le_of_lt hle hlt) (Nat.lt_irrefl _)

/-- C2 witness: one valid row (Jan 01 2025, 3 purchases) and one malformed
row (2 purchases) for the same address, with the wall clock far in their
future: the merged entry carries the valid row and the total 5. -/
theorem malformed_date_never_beats_valid_of_past_dates_witness :
    (∃ row ∈ [["a@x.com", "V", "", "", "Jan 01 2025 10:00 AM UTC", "", "", "3"],
              ["a@x.com", "M", "", "", "garbage", "", "", "2"]],
      rowIdentity row = "a@x.com" ∧
      parseDateAdded (pyStrip (row.getD 4 "")) =
        some ((⟨["a@x.com", "V", "", "", "Jan 01 2025 10:00 AM UTC", "", "", "3"],
          dateToMinutes 2025 1 1 10 0, 5⟩ : EmailEntry).parsed_date) ∧
      (⟨["a@x.com", "V", "", "", "Jan 01 2025 10:00 AM UTC", "", "", "3"],
        dateToMinutes 2025 1 1 10 0, 5⟩ : EmailEntry).record = row) ∧
    (⟨["a@x.com", "V", "", "", "Jan 01 2025 10:00 AM UTC", "", "", "3"],
      dateToMinutes 2025 1 1 10 0, 5⟩ : EmailEntry).total_purchases =
      (([["a@x.com", "V", "", "", "Jan 01 2025 10:00 AM UTC", "", "", "3"],
         ["a@x.com", "M", "", "", "garbage", "", "", "2"]].filter
          (fun row => rowIdentity row = "a@x.com")).map
        (fun row => parsePurchases (row.getD 7 ""))).sum :=
  malformed_date_never_beats_valid_of_past_dates (fun _ => 2000000000)
    [["a@x.com", "V", "", "", "Jan 01 2025 10:00 AM UTC", "", "", "3"],
     ["a@x.com", "M", "", "", "garbage", "", "", "2"]] "a@x.com"
    ⟨["a@x.com", "V", "", "", "Jan 01 2025 10:00 AM UTC", "", "", "3"],
      dateToMinutes 2025 1 1 10 0, 5⟩
    (by decide)
    ⟨["a@x.com", "V", "", "", "Jan 01 2025 10:00 AM UTC", "", "", "3"],
      by decide, by decide, by decide⟩
    (by
      intro row hm hid d hp k hk
      fin_cases hm
      · have hcomp : parseDateAdded (pyStrip
            ((["a@x.com", "V", "", "", "Jan 01 2025 10:00 AM UTC", "", "", "3"] :
              List String).getD 4 "")) = some (dateToMinutes 2025 1 1 10 0) := by decide
        rw [hcomp] at hp
        injection hp with hp2
        rw [← hp2]
        show dateToMinutes 2025 1 1 10 0 < 2000000000
        decide
      · have hcomp : parseDateAdded (pyStrip
            ((["a@x.com", "M", "", "", "garbage", "", "", "2"] :
              List String).getD 4 "")) = none := by decide
        rw [hcomp] at hp
        exact absurd hp (by simp))

/-! ### C7: empty identities are dropped -/

theorem assignDates_filter_nonempty (nowAt : Nat → Nat) (rows : List (List String))
    (k : Nat) :
    assignDates nowAt (rows.filter (fun row => rowIdentity row ≠ "")) k =
      (assignDates nowAt rows k).filter (fun rd => rowIdentity rd.1 ≠ "") := by
  induction rows generalizing k with
  | nil => simp [assignDates]
  | cons row rest ih =>
    by_cases he : rowIdentity row = ""
    · rw [List.filter_cons, if_neg (by simp [he]), assignDates, if_pos he,
        List.filter_cons, if_neg (by simp [he]), ih]
    · rw [List.filter_cons, if_pos (by simp [he])]
      simp only [assignDates, if_neg he]
      cases hp : parseDateAdded (pyStrip (row.getD 4 "")) with
      | some d =>
        simp only [hp]
        rw [List.filter_cons, if_pos (by simp [he]), ih]
      | none =>
        simp only [hp]
        rw [List.filter_cons, if_pos (by simp [he]), ih]

theorem mergeRows_filter_nonempty (l : List (List String × Nat)) :
    ∀ st, (l.filter (fun rd => rowIdentity rd.1 ≠ "")).foldl mergeStep st =
      l.foldl mergeStep st := by
  induction l with
  | nil => intro st; rfl
  | cons rd rest ih =>
    intro st
    by_cases he : rowIdentity rd.1 = ""
    · rw [List.filter_cons, if_neg (by simp [he]), List.foldl_cons, mergeStep_empty he]
      exact ih st
    · rw [List.filter_cons, if_pos (by simp [he]), List.foldl_cons, List.foldl_cons]
      exact ih (mergeStep st rd)

theorem mem_insByDate {x a : String × EmailEntry} {l : List (String × EmailEntry)} :
    a ∈ insByDate x l ↔ a = x ∨ a ∈ l := by
  induction l with
  | nil => simp [insByDate]
  | cons y ys ih =>
    rw [insByDate]
    by_cases hc : y.2.parsed_date ≤ x.2.parsed_date
    · rw [if_pos hc]
      simp only [List.mem_cons, ih]
      tauto
    · rw [if_neg hc]
      simp [List.mem_cons]

theorem mem_sortByDate {a : String × EmailEntry} {l : List (String × EmailEntry)} :
    a ∈ sortByDate l ↔ a ∈ l := by
  have haux : ∀ (l acc : List (String × EmailEntry)),
      a ∈ l.foldl (fun acc x => insByDate x acc) acc ↔ a ∈ acc ∨ a ∈ l := by
    intro l
    induction l with
    | nil => intro acc; simp
    | cons x xs ih =>
      intro acc
      rw [List.foldl_cons, ih, mem_insByDate]
      simp only [List.mem_cons]
      tauto
  rw [sortByDate, haux]
  simp

/-- Every row the relational insert leaves in the table either was already
there or is one of the freshly written rows: keyed by an entry of
email_data and carrying the joined source-file string. -/
theorem insert_mailing_mem_spec {email_data : List (String × EmailEntry)}
    {db : List MailDbRow} {source_files : List String} {r : MailDbRow}
    (hm : r ∈ insert_mailing_data db email_data source_files) :
    r ∈ db ∨ (r.source_file = String.intercalate ", " source_files ∧
      ∃ kv ∈ email_data, r.email = kv.1 ∧ r.record = kv.2.record ∧
        r.total_purchases = kv.2.total_purchases) := by
  induction email_data generalizing db with
  | nil => exact Or.inl hm
  | cons kv rest ih =>
    rw [insert_mailing_data, List.foldl_cons] at hm
    by_cases hi : mailRowInsertable kv.2.record
    · rw [if_pos hi] at hm
      rcases ih hm with hin | ⟨hsrc, kv2, hm2, he2⟩
      · rw [insertOrReplaceMail] at hin
        rcases List.mem_append.mp hin with hin2 | hin2
        · exact Or.inl (List.mem_of_mem_filter hin2)
        · simp only [List.mem_singleton] at hin2
          subst hin2
          exact Or.inr ⟨rfl, kv, List.mem_cons_self _ _, rfl, rfl, rfl⟩
      · exact Or.inr ⟨hsrc, kv2, List.mem_cons_of_mem _ hm2, he2⟩
    · rw [if_neg hi] at hm
      rcases ih hm with hin | ⟨hsrc, kv2, hm2, he2⟩
      · exact Or.inl hin
      · exact Or.inr ⟨hsrc, kv2, List.mem_cons_of_mem _ hm2, he2⟩

theorem lookupE_of_mem_nodup {st : List (String × EmailEntry)} {kv : String × EmailEntry}
    (hnd : (st.map Prod.fst).Nodup) (hm : kv ∈ st) : lookupE st kv.1 = some kv.2 := by
  induction st with
  | nil => simp at hm
  | cons kv2 rest ih =>
    rcases List.mem_cons.mp hm with hh | hh
    · subst hh
      rw [lookupE, if_pos rfl]
    · have hne : kv2.1 ≠ kv.1 := by
        intro heq
        have hin : kv.1 ∈ rest.map Prod.fst := List.mem_map_of_mem Prod.fst hh
        rw [List.map_cons, List.nodup_cons] at hnd
        exact hnd.1 (heq ▸ hin)
      rw [lookupE, if_neg hne]
      exact ih (by rw [List.map_cons, List.nodup_cons] at hnd; exact hnd.2) hh

theorem getD_zero_set_zero {l : List String} {a s : String} (h : l ≠ []) :
    ((l.set 7 s).set 0 a).getD 0 "" = a := by
  cases l with
  | nil => exact absurd rfl h
  | cons b t =>
    cases t with
    | nil => rfl
    | cons c u =>
      cases u <;> rfl

/-- C7: a mailing-list row whose trimmed, lower-cased email is empty has no
effect at all: the merge map over a row stream equals the map over the
stream with such rows removed, every key of the map is non-empty, every
data row of the flat consolidated file starts with a non-empty identity
(for streams of full 8-column rows), and every row reaching the relational
store either predates the run or carries a non-empty email. -/
theorem empty_identity_rows_dropped (nowAt : Nat → Nat) (rows : List (List String))
    (db : List MailDbRow) (source_files : List String) :
    consolidate_mailing nowAt rows =
      consolidate_mailing nowAt (rows.filter (fun row => rowIdentity row ≠ "")) ∧
    (∀ kv ∈ consolidate_mailing nowAt rows, kv.1 ≠ "") ∧
    ((∀ row ∈ rows, row.length = 8) →
      ∀ r ∈ (write_consolidated_csv full_expected_headers
        (consolidate_mailing nowAt rows)).tail, r.getD 0 "" ≠ "") ∧
    (∀ r ∈ insert_mailing_data db (consolidate_mailing nowAt rows) source_files,
      r ∈ db ∨ r.email ≠ "") := by
  obtain ⟨hnd, hiff, hchar⟩ := mergeRows_char (assignDates nowAt rows 0)
  have hkeys : ∀ kv ∈ consolidate_mailing nowAt rows, kv.1 ≠ "" := by
    intro kv hm
    have hs : (lookupE (mergeRows (assignDates nowAt rows 0)) kv.1).isSome :=
      lookupE_isSome_iff.mpr (List.mem_map_of_mem Prod.fst hm)
    exact ((hiff kv.1).mp hs).1
  refine ⟨?_, hkeys, fun hlen r hm => ?_, fun r hm => ?_⟩
  · rw [consolidate_mailing, consolidate_mailing, assignDates_filter_nonempty,
      mergeRows, mergeRows, mergeRows_filter_nonempty]
  · rw [write_consolidated_csv, List.tail_cons] at hm
    obtain ⟨kv, hkv, hr⟩ := List.mem_map.mp hm
    have hkv2 : kv ∈ consolidate_mailing nowAt rows := mem_sortByDate.mp hkv
    have hs : lookupE (mergeRows (assignDates nowAt rows 0)) kv.1 = some kv.2 :=
      lookupE_of_mem_nodup hnd hkv2
    obtain ⟨ht, rd, hmrd, hid, hrec, hdt, hmin⟩ := hchar kv.1 kv.2 hs
    have hrowmem : rd.1 ∈ rows := (assignDates_mem_spec hmrd).1
    have hrecne : kv.2.record ≠ [] := by
      rw [hrec]
      intro hnil
      have h8 := hlen rd.1 hrowmem
      rw [hnil] at h8
      simp at h8
    rw [← hr, getD_zero_set_zero hrecne]
    exact hkeys kv hkv2
  · rcases insert_mailing_mem_spec hm with hin | ⟨_, kv, hkv, he, _⟩
    · exact Or.inl hin
    · exact Or.inr (he ▸ hkeys kv hkv)

/-! ### C5: idempotent re-runs, clock correspondence machinery -/

/-- Correspondence between the dates a row is assigned in two runs over the
same sources that differ only in their wall clocks: either both runs parsed
the same valid date, which both clocks postdate, or both substituted the
reading taken at the same call index. -/
def DateCorr (nowAt1 nowAt2 : Nat → Nat) (N : Nat) (d1 d2 : Nat) : Prop :=
  (d1 = d2 ∧ ∀ k, k < N → d1 < nowAt1 k ∧ d1 < nowAt2 k) ∨
  (∃ j, j < N ∧ d1 = nowAt1 j ∧ d2 = nowAt2 j)

theorem dateCorr_lt_iff {nowAt1 nowAt2 : Nat → Nat} {N d1 d2 e1 e2 : Nat}
    (hm1 : StrictMono nowAt1) (hm2 : StrictMono nowAt2)
    (hd : DateCorr nowAt1 nowAt2 N d1 d2) (he : DateCorr nowAt1 nowAt2 N e1 e2) :
    (d1 < e1 ↔ d2 < e2) := by
  rcases hd with ⟨hdeq, hdb⟩ | ⟨j, hj, hd1, hd2⟩
  · rcases he with ⟨heeq, heb⟩ | ⟨j2, hj2, he1, he2⟩
    · rw [hdeq, heeq]
    · subst hdeq
      subst he1
      subst he2
      constructor
      · intro _
        exact (hdb j2 hj2).2
      · intro _
        exact (hdb j2 hj2).1
  · rcases he with ⟨heeq, heb⟩ | ⟨j2, hj2, he1, he2⟩
    · subst heeq
      subst hd1
      subst hd2
      constructor
      · intro hlt
        exact absurd (Nat.lt_trans (heb j hj).1 hlt) (Nat.lt_irrefl _)
      · intro hlt
        exact absurd (Nat.lt_trans (heb j hj).2 hlt) (Nat.lt_irrefl _)
    · subst hd1
      subst hd2
      subst he1
      subst he2
      rw [hm1.lt_iff_lt, hm2.lt_iff_lt]

theorem dateCorr_le_iff {nowAt1 nowAt2 : Nat → Nat} {N d1 d2 e1 e2 : Nat}
    (hm1 : StrictMono nowAt1) (hm2 : StrictMono nowAt2)
    (hd : DateCorr nowAt1 nowAt2 N d1 d2) (he : DateCorr nowAt1 nowAt2 N e1 e2) :
    (d1 ≤ e1 ↔ d2 ≤ e2) := by
  rw [← Nat.not_lt, ← Nat.not_lt, not_iff_not]
  exact dateCorr_lt_iff hm1 hm2 he hd

/-- Correspondence between the merge entries of two runs differing only in
their wall clocks: identical key, field values and total, with
corresponding dates. -/
def EntryCorr (nowAt1 nowAt2 : Nat → Nat) (N : Nat)
    (p q : String × EmailEntry) : Prop :=
  p.1 = q.1 ∧ p.2.record = q.2.record ∧ p.2.total_purchases = q.2.total_purchases ∧
  DateCorr nowAt1 nowAt2 N p.2.parsed_date q.2.parsed_date

/-- Correspondence between the annotated forms of the same source row in
two runs: same row, and either an identity the merge skips or
corresponding dates. -/
def RowCorr (nowAt1 nowAt2 : Nat → Nat) (N : Nat)
    (rd1 rd2 : List String × Nat) : Prop :=
  rd1.1 = rd2.1 ∧ (rowIdentity rd1.1 = "" ∨ DateCorr nowAt1 nowAt2 N rd1.2 rd2.2)

theorem assignDates_forall2 (nowAt1 nowAt2 : Nat → Nat) (N : Nat)
    (rows : List (List String)) (k : Nat) (hk : k + rows.length ≤ N)
    (hpast : ∀ row ∈ rows, ∀ d, parseDateAdded (pyStrip (row.getD 4 "")) = some d →
      ∀ j, j < N → d < nowAt1 j ∧ d < nowAt2 j) :
    List.Forall₂ (RowCorr nowAt1 nowAt2 N)
      (assignDates nowAt1 rows k) (assignDates nowAt2 rows k) := by
  induction rows generalizing k with
  | nil => exact List.Forall₂.nil
  | cons row rest ih =>
    have hkrest : k + rest.length ≤ N := by
      simp only [List.length_cons] at hk
      omega
    have hkrest2 : (k + 1) + rest.length ≤ N := by
      simp only [List.length_cons] at hk
      omega
    have hpastrest : ∀ row2 ∈ rest, ∀ d,
        parseDateAdded (pyStrip (row2.getD 4 "")) = some d →
          ∀ j, j < N → d < nowAt1 j ∧ d < nowAt2 j :=
      fun row2 hm => hpast row2 (List.mem_cons_of_mem _ hm)
    by_cases he : rowIdentity row = ""
    · rw [assignDates, assignDates, if_pos he, if_pos he]
      exact List.Forall₂.cons ⟨rfl, Or.inl he⟩ (ih k hkrest hpastrest)
    · rw [assignDates, assignDates, if_neg he, if_neg he]
      cases hp : parseDateAdded (pyStrip (row.getD 4 "")) with
      | some d =>
        refine List.Forall₂.cons ⟨rfl, Or.inr (Or.inl ⟨rfl, fun j hj => ?_⟩)⟩ (ih k hkrest hpastrest)
        exact hpast row (List.mem_cons_self _ _) d hp j hj
      | none =>
        refine List.Forall₂.cons ⟨rfl, Or.inr (Or.inr ⟨k, ?_, rfl, rfl⟩)⟩ (ih (k + 1) hkrest2 hpastrest)
        simp only [List.length_cons] at hk
        omega

theorem lookupE_corr {nowAt1 nowAt2 : Nat → Nat} {N : Nat}
    {st1 st2 : List (String × EmailEntry)}
    (h : List.Forall₂ (EntryCorr nowAt1 nowAt2 N) st1 st2) (e : String) :
    (lookupE st1 e = none ∧ lookupE st2 e = none) ∨
    ∃ p q, p.1 = e ∧ EntryCorr nowAt1 nowAt2 N p q ∧
      lookupE st1 e = some p.2 ∧ lookupE st2 e = some q.2 := by
  induction h with
  | nil => exact Or.inl ⟨rfl, rfl⟩
  | @cons p q st1 st2 hpq htail ih =>
    by_cases hk : p.1 = e
    · refine Or.inr ⟨p, q, hk, hpq, ?_, ?_⟩
      · rw [lookupE, if_pos hk]
      · rw [lookupE, if_pos (hpq.1 ▸ hk)]
    · have hk2 : q.1 ≠ e := fun hh => hk (hpq.1 ▸ hh)
      rw [lookupE, if_neg hk]
      rcases ih with ⟨h1, h2⟩ | ⟨p2, q2, hpe, hc, hl1, hl2⟩
      · refine Or.inl ⟨h1, ?_⟩
        rw [lookupE, if_neg hk2]
        exact h2
      · refine Or.inr ⟨p2, q2, hpe, hc, hl1, ?_⟩
        rw [lookupE, if_neg hk2]
        exact hl2

theorem updateE_corr {nowAt1 nowAt2 : Nat → Nat} {N : Nat}
    {st1 st2 : List (String × EmailEntry)}
    (h : List.Forall₂ (EntryCorr nowAt1 nowAt2 N) st1 st2) (e : String)
    {v1 v2 : EmailEntry} (hv : EntryCorr nowAt1 nowAt2 N (e, v1) (e, v2)) :
    List.Forall₂ (EntryCorr nowAt1 nowAt2 N) (updateE st1 e v1) (updateE st2 e v2) := by
  induction h with
  | nil => exact List.Forall₂.nil
  | @cons p q st1 st2 hpq htail ih =>
    by_cases hk : p.1 = e
    · rw [updateE, if_pos hk, updateE, if_pos (hpq.1 ▸ hk)]
      exact List.Forall₂.cons hv htail
    · rw [updateE, if_neg hk, updateE, if_neg (fun hh => hk (hpq.1 ▸ hh))]
      exact List.Forall₂.cons hpq ih

theorem mergeStep_corr {nowAt1 nowAt2 : Nat → Nat} {N : Nat}
    {st1 st2 : List (String × EmailEntry)} {rd1 rd2 : List String × Nat}
    (hm1 : StrictMono nowAt1) (hm2 : StrictMono nowAt2)
    (hst : List.Forall₂ (EntryCorr nowAt1 nowAt2 N) st1 st2)
    (hrd : RowCorr nowAt1 nowAt2 N rd1 rd2) :
    List.Forall₂ (EntryCorr nowAt1 nowAt2 N) (mergeStep st1 rd1) (mergeStep st2 rd2) := by
  obtain ⟨hrow, hdr⟩ := hrd
  by_cases he : rowIdentity rd1.1 = ""
  · rw [mergeStep_empty he, mergeStep_empty (show rowIdentity rd2.1 = "" from hrow ▸ he)]
    exact hst
  · have hdc : DateCorr nowAt1 nowAt2 N rd1.2 rd2.2 := hdr.resolve_left he
    have he2 : rowIdentity rd2.1 ≠ "" := fun hh => he (by rw [hrow]; exact hh)
    rcases lookupE_corr hst (rowIdentity rd1.1) with ⟨hn1, hn2⟩ | ⟨p, q, hpe, hpq, hs1, hs2⟩
    · rw [mergeStep_new he hn1, mergeStep_new he2 (by rw [← hrow]; exact hn2), ← hrow]
      refine List.rel_append hst (List.Forall₂.cons ⟨rfl, rfl, ?_, hdc⟩ List.Forall₂.nil)
      rfl
    · have hsq : lookupE st2 (rowIdentity rd2.1) = some q.2 := by
        rw [← hrow]
        exact hs2
      have hiff := dateCorr_lt_iff hm1 hm2 hdc hpq.2.2.2
      by_cases hlt : rd1.2 < p.2.parsed_date
      · rw [mergeStep_replace he hs1 hlt, mergeStep_replace he2 hsq (hiff.mp hlt), ← hrow]
        exact updateE_corr hst (rowIdentity rd1.1)
          ⟨rfl, rfl, by rw [hpq.2.2.1], hdc⟩
      · rw [mergeStep_keep he hs1 hlt, mergeStep_keep he2 hsq (fun hh => hlt (hiff.mpr hh)),
          ← hrow]
        exact updateE_corr hst (rowIdentity rd1.1)
          ⟨rfl, hpq.2.1, by rw [hpq.2.2.1], hpq.2.2.2⟩

theorem mergeRows_corr {nowAt1 nowAt2 : Nat → Nat} {N : Nat}
    {l1 l2 : List (List String × Nat)}
    (hm1 : StrictMono nowAt1) (hm2 : StrictMono nowAt2)
    (hl : List.Forall₂ (RowCorr nowAt1 nowAt2 N) l1 l2) :
    List.Forall₂ (EntryCorr nowAt1 nowAt2 N) (mergeRows l1) (mergeRows l2) := by
  have haux : ∀ {l1 l2 : List (List String × Nat)},
      List.Forall₂ (RowCorr nowAt1 nowAt2 N) l1 l2 →
      ∀ {st1 st2}, List.Forall₂ (EntryCorr nowAt1 nowAt2 N) st1 st2 →
      List.Forall₂ (EntryCorr nowAt1 nowAt2 N) (l1.foldl mergeStep st1)
        (l2.foldl mergeStep st2) := by
    intro l1 l2 hl
    induction hl with
    | nil => intro st1 st2 hst; exact hst
    | @cons rd1 rd2 t1 t2 hrd htail ih =>
      intro st1 st2 hst
      rw [List.foldl_cons, List.foldl_cons]
      exact ih (mergeStep_corr hm1 hm2 hst hrd)
  exact haux hl List.Forall₂.nil

theorem insByDate_corr {nowAt1 nowAt2 : Nat → Nat} {N : Nat}
    {x1 x2 : String × EmailEntry} {acc1 acc2 : List (String × EmailEntry)}
    (hm1 : StrictMono nowAt1) (hm2 : StrictMono nowAt2)
    (hx : EntryCorr nowAt1 nowAt2 N x1 x2)
    (hacc : List.Forall₂ (EntryCorr nowAt1 nowAt2 N) acc1 acc2) :
    List.Forall₂ (EntryCorr nowAt1 nowAt2 N) (insByDate x1 acc1) (insByDate x2 acc2) := by
  induction hacc with
  | nil => exact List.Forall₂.cons hx List.Forall₂.nil
  | @cons y1 y2 t1 t2 hy htail ih =>
    have hiff := dateCorr_le_iff hm1 hm2 hy.2.2.2 hx.2.2.2
    by_cases hc : y1.2.parsed_date ≤ x1.2.parsed_date
    · rw [insByDate, if_pos hc, insByDate, if_pos (hiff.mp hc)]
      exact List.Forall₂.cons hy ih
    · rw [insByDate, if_neg hc, insByDate, if_neg (fun hh => hc (hiff.mpr hh))]
      exact List.Forall₂.cons hx (List.Forall₂.cons hy htail)

theorem sortByDate_corr {nowAt1 nowAt2 : Nat → Nat} {N : Nat}
    {l1 l2 : List (String × EmailEntry)}
    (hm1 : StrictMono nowAt1) (hm2 : StrictMono nowAt2)
    (hl : List.Forall₂ (EntryCorr nowAt1 nowAt2 N) l1 l2) :
    List.Forall₂ (EntryCorr nowAt1 nowAt2 N) (sortByDate l1) (sortByDate l2) := by
  have haux : ∀ {l1 l2 : List (String × EmailEntry)},
      List.Forall₂ (EntryCorr nowAt1 nowAt2 N) l1 l2 →
      ∀ {acc1 acc2}, List.Forall₂ (EntryCorr nowAt1 nowAt2 N) acc1 acc2 →
      List.Forall₂ (EntryCorr nowAt1 nowAt2 N)
        (l1.foldl (fun acc x => insByDate x acc) acc1)
        (l2.foldl (fun acc x => insByDate x acc) acc2) := by
    intro l1 l2 hl
    induction hl with
    | nil => intro acc1 acc2 hacc; exact hacc
    | @cons x1 x2 t1 t2 hx htail ih =>
      intro acc1 acc2 hacc
      rw [List.foldl_cons, List.foldl_cons]
      exact ih (insByDate_corr hm1 hm2 hx hacc)
  exact haux hl List.Forall₂.nil

theorem entries_map_flat_row_eq {nowAt1 nowAt2 : Nat → Nat} {N : Nat}
    {t1 t2 : List (String × EmailEntry)}
    (h : List.Forall₂ (EntryCorr nowAt1 nowAt2 N) t1 t2) :
    t1.map (fun kv => (kv.2.record.set 7 (toString kv.2.total_purchases)).set 0 kv.1) =
      t2.map (fun kv => (kv.2.record.set 7 (toString kv.2.total_purchases)).set 0 kv.1) := by
  induction h with
  | nil => rfl
  | @cons p q s1 s2 hpq htail ih =>
    rw [List.map_cons, List.map_cons, ih, hpq.1, hpq.2.1, hpq.2.2.1]

theorem write_consolidated_csv_corr {nowAt1 nowAt2 : Nat → Nat} {N : Nat}
    {l1 l2 : List (String × EmailEntry)} (headers : List String)
    (hm1 : StrictMono nowAt1) (hm2 : StrictMono nowAt2)
    (hl : List.Forall₂ (EntryCorr nowAt1 nowAt2 N) l1 l2) :
    write_consolidated_csv headers l1 = write_consolidated_csv headers l2 := by
  rw [write_consolidated_csv, write_consolidated_csv]
  exact congrArg _ (entries_map_flat_row_eq (sortByDate_corr hm1 hm2 hl))

theorem insert_mailing_data_corr {nowAt1 nowAt2 : Nat → Nat} {N : Nat}
    {l1 l2 : List (String × EmailEntry)} {source_files : List String}
    (hl : List.Forall₂ (EntryCorr nowAt1 nowAt2 N) l1 l2) :
    ∀ db, insert_mailing_data db l1 source_files = insert_mailing_data db l2 source_files := by
  induction hl with
  | nil => intro db; rfl
  | @cons p q t1 t2 hpq htail ih =>
    intro db
    rw [insert_mailing_data, insert_mailing_data, List.foldl_cons, List.foldl_cons,
      hpq.1, hpq.2.1, hpq.2.2.1]
    exact ih _

theorem insertOrReplaceMail_key_mem {db : List MailDbRow} {k : String × String}
    (r : MailDbRow) (h : k ∈ db.map mailKey) :
    k ∈ (insertOrReplaceMail db r).map mailKey := by
  by_cases hk : k = mailKey r
  · rw [insertOrReplaceMail, List.map_append]
    exact List.mem_append_right _ (by simp [hk])
  · obtain ⟨x, hx, hxk⟩ := List.mem_map.mp h
    rw [insertOrReplaceMail, List.map_append]
    refine List.mem_append_left _ (List.mem_map.mpr ⟨x, ?_, hxk⟩)
    refine List.mem_filter.mpr ⟨hx, ?_⟩
    simp only [ne_eq, decide_not]
    simp [hxk ▸ hk]

theorem insertOrReplaceMail_nodup {db : List MailDbRow} (r : MailDbRow)
    (h : (db.map mailKey).Nodup) :
    ((insertOrReplaceMail db r).map mailKey).Nodup := by
  rw [insertOrReplaceMail, List.map_append]
  rw [List.nodup_append]
  refine ⟨((List.filter_sublist db).map mailKey).nodup h, by simp, ?_⟩
  intro a ha hb
  simp only [List.map_cons, List.map_nil, List.mem_singleton] at hb
  obtain ⟨x, hx, hxk⟩ := List.mem_map.mp ha
  have := List.mem_filter.mp hx
  rw [hxk, hb] at this
  simp at this

theorem insertOrReplaceMail_length {db : List MailDbRow} {r : MailDbRow}
    (hnd : (db.map mailKey).Nodup) (hm : mailKey r ∈ db.map mailKey) :
    (insertOrReplaceMail db r).length = db.length := by
  induction db with
  | nil => simp at hm
  | cons x rest ih =>
    rw [List.map_cons, List.nodup_cons] at hnd
    by_cases hx : mailKey x = mailKey r
    · have hrest : rest.filter (fun y => mailKey y ≠ mailKey r) = rest := by
        rw [List.filter_eq_self]
        intro y hy
        simp only [ne_eq, decide_not, Bool.not_eq_eq_eq_not, Bool.not_true,
          decide_eq_false_iff_not]
        intro heq
        exact hnd.1 (hx ▸ heq ▸ List.mem_map_of_mem mailKey hy)
      rw [insertOrReplaceMail, List.filter_cons, if_neg (by simp [hx]), hrest]
      simp
    · have hm2 : mailKey r ∈ rest.map mailKey := by
        rcases List.mem_cons.mp hm with hh | hh
        · exact absurd hh.symm hx
        · exact hh
      have hstep : insertOrReplaceMail (x :: rest) r = x :: insertOrReplaceMail rest r := by
        rw [insertOrReplaceMail, insertOrReplaceMail, List.filter_cons,
          if_pos (by simp [hx])]
        rfl
      rw [hstep, List.length_cons, List.length_cons, ih hnd.2 hm2]

theorem insert_mailing_data_key_mem {email_data : List (String × EmailEntry)}
    {source_files : List String} :
    ∀ {db : List MailDbRow} {k : String × String}, k ∈ db.map mailKey →
      k ∈ (insert_mailing_data db email_data source_files).map mailKey := by
  induction email_data with
  | nil => intro db k h; exact h
  | cons kv rest ih =>
    intro db k h
    rw [insert_mailing_data, List.foldl_cons]
    by_cases hi : mailRowInsertable kv.2.record
    · rw [if_pos hi]
      exact ih (insertOrReplaceMail_key_mem _ h)
    · rw [if_neg hi]
      exact ih h

theorem insert_mailing_data_nodup {email_data : List (String × EmailEntry)}
    {source_files : List String} :
    ∀ {db : List MailDbRow}, (db.map mailKey).Nodup →
      ((insert_mailing_data db email_data source_files).map mailKey).Nodup := by
  induction email_data with
  | nil => intro db h; exact h
  | cons kv rest ih =>
    intro db h
    rw [insert_mailing_data, List.foldl_cons]
    by_cases hi : mailRowInsertable kv.2.record
    · rw [if_pos hi]
      exact ih (insertOrReplaceMail_nodup _ h)
    · rw [if_neg hi]
      exact ih h

theorem insert_mailing_data_key_present {email_data : List (String × EmailEntry)}
    {source_files : List String} :
    ∀ {db : List MailDbRow} {kv : String × EmailEntry}, kv ∈ email_data →
      mailRowInsertable kv.2.record →
      (kv.1, String.intercalate ", " source_files) ∈
        (insert_mailing_data db email_data source_files).map mailKey := by
  induction email_data with
  | nil => intro db kv h; simp at h
  | cons kv2 rest ih =>
    intro db kv hm hi
    rw [insert_mailing_data, List.foldl_cons]
    rcases List.mem_cons.mp hm with hh | hh
    · subst hh
      rw [if_pos hi]
      refine insert_mailing_data_key_mem ?_
      rw [insertOrReplaceMail, List.map_append]
      exact List.mem_append_right _ (by simp [mailKey])
    · by_cases hi2 : mailRowInsertable kv2.2.record
      · rw [if_pos hi2]
        exact ih hh hi
      · rw [if_neg hi2]
        exact ih hh hi

theorem insert_mailing_data_length_stable {source_files : List String} :
    ∀ (email_data : List (String × EmailEntry)) (db : List MailDbRow),
      (db.map mailKey).Nodup →
      (∀ kv ∈ email_data, mailRowInsertable kv.2.record →
        ((kv.1, String.intercalate ", " source_files) : String × String) ∈
          db.map mailKey) →
      (insert_mailing_data db email_data source_files).length = db.length := by
  intro email_data
  induction email_data with
  | nil => intro db _ _; rfl
  | cons kv rest ih =>
    intro db hnd hp
    by_cases hi : mailRowInsertable kv.2.record
    · have hstep : insert_mailing_data db (kv :: rest) source_files =
          insert_mailing_data (insertOrReplaceMail db
            { email := kv.1, record := kv.2.record,
              num_purchases :=
                if stripChars (kv.2.record.getD 7 "").data = [] then 0
                else (pyInt? (kv.2.record.getD 7 "")).getD 0,
              total_purchases := kv.2.total_purchases,
              source_file := String.intercalate ", " source_files }) rest source_files := by
        simp only [insert_mailing_data, List.foldl_cons, hi, if_true]
      have hkm : mailKey
          { email := kv.1, record := kv.2.record,
            num_purchases :=
              if stripChars (kv.2.record.getD 7 "").data = [] then 0
              else (pyInt? (kv.2.record.getD 7 "")).getD 0,
            total_purchases := kv.2.total_purchases,
            source_file := String.intercalate ", " source_files } ∈
          db.map mailKey := hp kv (List.mem_cons_self _ _) hi
      rw [hstep,
        ih _ (insertOrReplaceMail_nodup _ hnd)
          (fun kv2 hm2 hi2 =>
            insertOrReplaceMail_key_mem _ (hp kv2 (List.mem_cons_of_mem _ hm2) hi2)),
        insertOrReplaceMail_length hnd hkm]
    · have hstep : insert_mailing_data db (kv :: rest) source_files =
          insert_mailing_data db rest source_files := by
        simp only [insert_mailing_data, List.foldl_cons, hi, if_false, Bool.false_eq_true]
      rw [hstep]
      exact ih db hnd (fun kv2 hm2 => hp kv2 (List.mem_cons_of_mem _ hm2))

/-- C7 witness: a run over one row with a whitespace-only email and one
normal row equals the run over the normal row alone. -/
theorem empty_identity_rows_dropped_witness :
    consolidate_mailing (fun _ => 0)
        [["   ", "Ghost", "G", "H", "Jan 01 2025 10:00 AM UTC", "", "", "9"],
         ["b@x.com", "Bea", "B", "X", "Jan 02 2025 10:00 AM UTC", "", "", "1"]] =
      consolidate_mailing (fun _ => 0)
        ([["   ", "Ghost", "G", "H", "Jan 01 2025 10:00 AM UTC", "", "", "9"],
          ["b@x.com", "Bea", "B", "X", "Jan 02 2025 10:00 AM UTC", "", "", "1"]].filter
          (fun row => rowIdentity row ≠ "")) :=
  (empty_identity_rows_dropped (fun _ => 0)
    [["   ", "Ghost", "G", "H", "Jan 01 2025 10:00 AM UTC", "", "", "9"],
     ["b@x.com", "Bea", "B", "X", "Jan 02 2025 10:00 AM UTC", "", "", "1"]]
    [] ["mailing_list-a.csv"]).1

/-- C5 counterexample: one identity with a future-dated valid row and a
malformed row.  The first run, whose wall clock precedes the valid date,
stores the malformed row as winner; a later re-run over the same sources,
whose clock has passed the valid date, stores the valid row instead: the
two flat consolidated files differ, so re-running is not unconditionally
idempotent. -/
theorem rerun_flat_differs_cex :
    write_consolidated_csv full_expected_headers
        (consolidate_mailing (fun k => k)
          [["a@x.com", "V", "", "", "Jan 01 2030 10:00 AM UTC", "", "", "3"],
           ["a@x.com", "M", "", "", "garbage", "", "", "2"]]) ≠
      write_consolidated_csv full_expected_headers
        (consolidate_mailing (fun k => k + 2000000000)
          [["a@x.com", "V", "", "", "Jan 01 2030 10:00 AM UTC", "", "", "3"],
           ["a@x.com", "M", "", "", "garbage", "", "", "2"]]) := by decide

/-- C5 (amended): two consolidation runs over the same source rows whose
strictly increasing wall clocks both postdate every valid parsed date (the
intended situation: date added values in the past) produce identical flat
consolidated files, and the second run leaves the mailing-list table with
the same row count as the first, because each relational write is an
INSERT OR REPLACE keyed on (email, joined source-file list). -/
theorem rerun_idempotent_of_past_dates (nowAt1 nowAt2 : Nat → Nat)
    (rows : List (List String)) (db0 : List MailDbRow) (source_files : List String)
    (hm1 : StrictMono nowAt1) (hm2 : StrictMono nowAt2)
    (hnd0 : (db0.map mailKey).Nodup)
    (hpast : ∀ row ∈ rows, ∀ d, parseDateAdded (pyStrip (row.getD 4 "")) = some d →
      ∀ k, k < rows.length → d < nowAt1 k ∧ d < nowAt2 k) :
    write_consolidated_csv full_expected_headers (consolidate_mailing nowAt2 rows) =
      write_consolidated_csv full_expected_headers (consolidate_mailing nowAt1 rows) ∧
    (insert_mailing_data
        (insert_mailing_data db0 (consolidate_mailing nowAt1 rows) source_files)
        (consolidate_mailing nowAt2 rows) source_files).length =
      (insert_mailing_data db0 (consolidate_mailing nowAt1 rows) source_files).length := by
  have hfa : List.Forall₂ (RowCorr nowAt1 nowAt2 rows.length)
      (assignDates nowAt1 rows 0) (assignDates nowAt2 rows 0) :=
    assignDates_forall2 nowAt1 nowAt2 rows.length rows 0 (by simp) hpast
  have hent := mergeRows_corr hm1 hm2 hfa
  constructor
  · exact (write_consolidated_csv_corr full_expected_headers hm1 hm2 hent).symm
  · have heq2 :
        insert_mailing_data
          (insert_mailing_data db0 (consolidate_mailing nowAt1 rows) source_files)
          (consolidate_mailing nowAt2 rows) source_files =
        insert_mailing_data
          (insert_mailing_data db0 (consolidate_mailing nowAt1 rows) source_files)
          (consolidate_mailing nowAt1 rows) source_files :=
      (insert_mailing_data_corr hent _).symm
    rw [heq2]
    apply insert_mailing_data_length_stable
    · exact insert_mailing_data_nodup hnd0
    · intro kv hm hi
      exact insert_mailing_data_key_present hm hi

/-- C5 witness: one valid past-dated row and one malformed row, with two
strictly increasing clocks both far past the valid date: the two runs
write identical flat files and the table row count is unchanged. -/
theorem rerun_idempotent_of_past_dates_witness :
    write_consolidated_csv full_expected_headers
        (consolidate_mailing (fun k => k + 3000000000)
          [["a@x.com", "V", "", "", "Jan 01 2025 10:00 AM UTC", "", "", "3"],
           ["a@x.com", "M", "", "", "garbage", "", "", "2"]]) =
      write_consolidated_csv full_expected_headers
        (consolidate_mailing (fun k => k + 2000000000)
          [["a@x.com", "V", "", "", "Jan 01 2025 10:00 AM UTC", "", "", "3"],
           ["a@x.com", "M", "", "", "garbage", "", "", "2"]]) ∧
    (insert_mailing_data
        (insert_mailing_data []
          (consolidate_mailing (fun k => k + 2000000000)
            [["a@x.com", "V", "", "", "Jan 01 2025 10:00 AM UTC", "", "", "3"],
             ["a@x.com", "M", "", "", "garbage", "", "", "2"]]) ["mailing_list-a.csv"])
        (consolidate_mailing (fun k => k + 3000000000)
          [["a@x.com", "V", "", "", "Jan 01 2025 10:00 AM UTC", "", "", "3"],
           ["a@x.com", "M", "", "", "garbage", "", "", "2"]]) ["mailing_list-a.csv"]).length =
      (insert_mailing_data []
        (consolidate_mailing (fun k => k + 2000000000)
          [["a@x.com", "V", "", "", "Jan 01 2025 10:00 AM UTC", "", "", "3"],
           ["a@x.com", "M", "", "", "garbage", "", "", "2"]]) ["mailing_list-a.csv"]).length :=
  rerun_idempotent_of_past_dates (fun k => k + 2000000000) (fun k => k + 3000000000)
    [["a@x.com", "V", "", "", "Jan 01 2025 10:00 AM UTC", "", "", "3"],
     ["a@x.com", "M", "", "", "garbage", "", "", "2"]] [] ["mailing_list-a.csv"]
    (fun a b h => Nat.add_lt_add_right h 2000000000)
    (fun a b h => Nat.add_lt_add_right h 3000000000)
    (by simp)
    (by
      intro row hm d hp k hk
      fin_cases hm
      · have hcomp : parseDateAdded (pyStrip
            ((["a@x.com", "V", "", "", "Jan 01 2025 10:00 AM UTC", "", "", "3"] :
              List String).getD 4 "")) = some (dateToMinutes 2025 1 1 10 0) := by decide
        rw [hcomp] at hp
        injection hp with hp2
        have hD : dateToMinutes 2025 1 1 10 0 < 2000000000 := by decide
        constructor
        · show d < k + 2000000000
          omega
        · show d < k + 3000000000
          omega
      · have hcomp : parseDateAdded (pyStrip
            ((["a@x.com", "M", "", "", "garbage", "", "", "2"] :
              List String).getD 4 "")) = none := by decide
        rw [hcomp] at hp
        exact absurd hp (by simp))

/-! ### C6: per-file failure isolation -/

/-- The records one mailing file contributes: none when the open raises
(unreadable file) or when process_single_csv raises. -/
def mailFileRecords (file : Option (List Nat)) : Option (List (List (String × String))) :=
  match file with
  | none => none
  | some bytes => process_single_csv bytes

/-- Whether a row consumes a wall clock reading in the merge loop. -/
def clockConsumed (row : List String) : Bool :=
  rowIdentity row ≠ "" && (parseDateAdded (pyStrip (row.getD 4 ""))).isNone

theorem build_email_data_fold (nowAt : Nat → Nat) :
    ∀ (rows : List (List String)) (st : MergeState),
      rows.foldl (build_email_data_step nowAt) st =
        ⟨(assignDates nowAt rows st.clockCalls).foldl mergeStep st.entries,
         st.clockCalls + (rows.filter clockConsumed).length⟩ := by
  intro rows
  induction rows with
  | nil =>
    intro st
    simp [assignDates]
  | cons row rest ih =>
    intro st
    rw [List.foldl_cons]
    by_cases he : rowIdentity row = ""
    · have hcc : clockConsumed row = false := by
        simp [clockConsumed, he]
      rw [build_email_data_step, if_pos he, ih st, List.filter_cons, hcc, if_neg (by simp)]
      rw [assignDates, if_pos he, List.foldl_cons, mergeStep_empty he]
    · rw [build_email_data_step, if_neg he]
      cases hp : parseDateAdded (pyStrip (row.getD 4 "")) with
      | some d =>
        have hcc : clockConsumed row = false := by
          rw [clockConsumed, hp]
          simp
        rw [ih _, List.filter_cons, hcc, if_neg (by simp)]
        rw [assignDates, if_neg he, hp, List.foldl_cons]
      | none =>
        have hcc : clockConsumed row = true := by
          rw [clockConsumed, hp]
          simp [he]
        rw [ih _, List.filter_cons, hcc, if_pos rfl]
        rw [assignDates, if_neg he, hp, List.foldl_cons]
        refine congrArg _ ?_
        simp only [List.length_cons]
        omega

theorem consolidate_mailing_run_fold (nowAt : Nat → Nat) :
    ∀ (files : List (Option (List Nat))) (st : MergeState × Nat),
      files.foldl (processMailingFile nowAt) st =
        ((((files.filterMap mailFileRecords).flatten).map alignRow).foldl
            (build_email_data_step nowAt) st.1,
         st.2 + files.countP (fun f => (mailFileRecords f).isSome)) := by
  intro files
  induction files with
  | nil => intro st; simp
  | cons f rest ih =>
    intro st
    rw [List.foldl_cons]
    cases hf : mailFileRecords f with
    | none =>
      have hstep : processMailingFile nowAt st f = st := by
        cases f with
        | none => rfl
        | some bytes =>
          simp only [mailFileRecords] at hf
          simp [processMailingFile, hf]
      rw [hstep, ih st, List.filterMap_cons_none hf, List.countP_cons]
      have hnone : (mailFileRecords f).isSome = false := by rw [hf]; rfl
      rw [hnone]
      simp
    | some records =>
      have hstep : processMailingFile nowAt st f =
          ((records.map alignRow).foldl (build_email_data_step nowAt) st.1,
           st.2 + 1) := by
        cases f with
        | none => simp [mailFileRecords] at hf
        | some bytes =>
          simp only [mailFileRecords] at hf
          simp [processMailingFile, hf, List.foldl_map]
      rw [hstep, ih _, List.filterMap_cons_some hf, List.countP_cons]
      refine congrArg₂ _ ?_ ?_
      · rw [List.flatten_cons, List.map_append, List.foldl_append]
      · have hsome : (mailFileRecords f).isSome = true := by rw [hf]; rfl
        rw [hsome]
        simp only [if_true]
        omega

/-- C6 (amended): a mailing consolidation run is a total function of its
inputs (no per-file failure reaches the caller), its files-processed count
is exactly the number of files that were read and decoded successfully,
and its merge map is built from precisely the records of those successful
files, in order.  For the revenue pipeline the same absorption holds, but
a file failing partway through leaves its already-written rows in the flat
output, so the output does not only contain records of successfully
processed files (see the counterexample). -/
theorem per_file_failures_isolated (nowAt : Nat → Nat)
    (files : List (Option (List Nat))) :
    (consolidate_mailing_run nowAt files).2 =
      files.countP (fun f => (mailFileRecords f).isSome) ∧
    (consolidate_mailing_run nowAt files).1.entries =
      consolidate_mailing nowAt
        (((files.filterMap mailFileRecords).flatten).map alignRow) := by
  rw [consolidate_mailing_run, consolidate_mailing_run_fold nowAt files (⟨[], 0⟩, 0)]
  refine ⟨by simp, ?_⟩
  rw [build_email_data_fold]
  rfl

/-- C6 witness: three files where the second raises on open (permission
error): the run reports two files processed and merges exactly the rows of
files one and three. -/
theorem per_file_failures_isolated_witness :
    (consolidate_mailing_run (fun _ => 0)
        [some ("email,fullname,firstname,lastname,date added,country,postal code,num purchases\na@x.com,A,,,Jan 01 2025 10:00 AM UTC,,,3\n".data.map Char.toNat),
         none,
         some ("email,fullname,firstname,lastname,date added,country,postal code,num purchases\nb@x.com,B,,,Jan 02 2025 10:00 AM UTC,,,1\n".data.map Char.toNat)]).2 =
      [some ("email,fullname,firstname,lastname,date added,country,postal code,num purchases\na@x.com,A,,,Jan 01 2025 10:00 AM UTC,,,3\n".data.map Char.toNat),
       none,
       some ("email,fullname,firstname,lastname,date added,country,postal code,num purchases\nb@x.com,B,,,Jan 02 2025 10:00 AM UTC,,,1\n".data.map Char.toNat)].countP
        (fun f => (mailFileRecords f).isSome) :=
  (per_file_failures_isolated (fun _ => 0)
    [some ("email,fullname,firstname,lastname,date added,country,postal code,num purchases\na@x.com,A,,,Jan 01 2025 10:00 AM UTC,,,3\n".data.map Char.toNat),
     none,
     some ("email,fullname,firstname,lastname,date added,country,postal code,num purchases\nb@x.com,B,,,Jan 02 2025 10:00 AM UTC,,,1\n".data.map Char.toNat)]).1

/-- C6 counterexample (revenue pipeline): a revenue file whose first line
decodes but whose third line holds an invalid byte is counted as
unprocessed (files_processed = 0) and inserts nothing into the database,
yet the data row read before the error has already been written to the
flat consolidated file: a failed file still contributes to an output. -/
theorem revenue_partial_rows_cex :
    (consolidate_revenue_files "2025-07-01" "2025-07-31" []
        [(("h\na,b\nc,".data.map Char.toNat) ++ [0xE9, 10], "f1.csv")]).files_processed = 0 ∧
    (consolidate_revenue_files "2025-07-01" "2025-07-31" []
        [(("h\na,b\nc,".data.map Char.toNat) ++ [0xE9, 10], "f1.csv")]).db = [] ∧
    (consolidate_revenue_files "2025-07-01" "2025-07-31" []
        [(("h\na,b\nc,".data.map Char.toNat) ++ [0xE9, 10], "f1.csv")]).flat ≠
      [revenue_kept_headers] := by decide

/-! ### C3: header drift and positional parsing -/

theorem getD_replicate_empty : ∀ (n i : Nat), (List.replicate n "").getD i "" = "" := by
  intro n
  induction n with
  | zero => intro i; simp
  | succ n2 ih =>
    intro i
    cases i with
    | zero => rfl
    | succ i2 =>
      rw [List.replicate_succ, List.getD_cons_succ]
      exact ih i2

theorem padTruncAux_getD : ∀ (l : List String) (n i : Nat), i < n →
    ((l ++ List.replicate (n - l.length) "").take n).getD i "" = l.getD i "" := by
  intro l
  induction l with
  | nil =>
    intro n i hi
    rw [List.nil_append, List.length_nil, Nat.sub_zero, List.take_replicate,
      Nat.min_self, getD_replicate_empty]
    simp
  | cons x xs ih =>
    intro n i hi
    cases n with
    | zero => omega
    | succ n2 =>
      cases i with
      | zero => rfl
      | succ i2 =>
        rw [List.cons_append, List.take_succ_cons, List.getD_cons_succ,
          List.getD_cons_succ, List.length_cons,
          show n2 + 1 - (xs.length + 1) = n2 - xs.length by omega]
        exact ih n2 i2 (by omega)

/-- C3 counterexample (mailing-list reader): a file whose header renames
the email column (correct column count) does NOT produce a positionally
aligned record: the consumer of process_single_csv looks fields up by the
canonical header NAME in the per-file dict, so the value under the renamed
column is replaced by the empty string instead of staying in column 0. -/
theorem mails_reader_not_positional_cex :
    alignRow (pyDict (List.zip
        ["e-mail", "fullname", "firstname", "lastname", "date added", "country",
         "postal code", "num purchases"]
        ["a@x.com", "John", "J", "D", "Jan 01 2025 10:00 AM UTC", "US", "12345", "3"])) ≠
      ["a@x.com", "John", "J", "D", "Jan 01 2025 10:00 AM UTC", "US", "12345", "3"] ∧
    (alignRow (pyDict (List.zip
        ["e-mail", "fullname", "firstname", "lastname", "date added", "country",
         "postal code", "num purchases"]
        ["a@x.com", "John", "J", "D", "Jan 01 2025 10:00 AM UTC", "US", "12345", "3"]))).getD
        0 "" = "" ∧
    (["e-mail", "fullname", "firstname", "lastname", "date added", "country",
      "postal code", "num purchases"] : List String).length =
      full_expected_headers.length := by decide

/-- C3 (amended): the revenue reader is header-name independent: replacing
the header line of a file by any other line leaves the processing of its
data rows unchanged, and each surviving data row is aligned purely by
position with the canonical 23-column schema, padded with empty strings
and truncated to that count.  The mailing-list reader, by contrast, keys
fields by the header names of the file (see the counterexample). -/
theorem revenue_reader_positional (dateB dateE : String) (st : RevenueRunState)
    (src : String) (h1 h2 : List Char) (body : List (List Char)) (ok : Bool) :
    revenueProcessLines dateB dateE st src (h1 :: body) ok =
      revenueProcessLines dateB dateE st src (h2 :: body) ok ∧
    ∀ (row : List String) (i : Nat), i < revenue_full_headers.length →
      (padTruncRevenue row).getD i "" = row.getD i "" ∧
      (padTruncRevenue row).length = revenue_full_headers.length := by
  refine ⟨rfl, fun row i hi => ⟨padTruncAux_getD row _ i hi, ?_⟩⟩
  rw [padTruncRevenue, List.length_take, List.length_append, List.length_replicate]
  omega

/-- C3 witness: a concrete header swap leaves the revenue row processing
unchanged, and padding aligns a short row positionally. -/
theorem revenue_reader_positional_witness :
    revenueProcessLines "2025-07-01" "2025-07-31" ⟨[revenue_kept_headers], [], 0, 0⟩
        "f.csv" ("some header".data :: ["a,b".data]) true =
      revenueProcessLines "2025-07-01" "2025-07-31" ⟨[revenue_kept_headers], [], 0, 0⟩
        "f.csv" ("another header entirely".data :: ["a,b".data]) true ∧
    (padTruncRevenue ["a", "b"]).getD 1 "" = (["a", "b"] : List String).getD 1 "" ∧
    (padTruncRevenue ["a", "b"]).length = revenue_full_headers.length :=
  ⟨(revenue_reader_positional "2025-07-01" "2025-07-31" ⟨[revenue_kept_headers], [], 0, 0⟩
      "f.csv" "some header".data "another header entirely".data ["a,b".data] true).1,
   (revenue_reader_positional "2025-07-01" "2025-07-31" ⟨[revenue_kept_headers], [], 0, 0⟩
      "f.csv" "some header".data "another header entirely".data ["a,b".data] true).2
     ["a", "b"] 1 (by decide)⟩

/-! ### C4: encoding fallback residue -/

/-- C4: evaluation of process_single_csv at a file whose header and first
data row decode under utf-8 but whose second data row holds the lone byte
0xE9 (valid latin-1, invalid utf-8).  The records list is created once
before the encoding loop, so the rows appended during the two aborted
utf-8 attempts remain: the result holds the first data row three times
followed by the latin-1 parse of the second, instead of the pure
winning-encoding parse of the whole file. -/
theorem encoding_fallback_residue_bug :
    process_single_csv (("h1,h2\na,b\nc,".data.map Char.toNat) ++ [0xE9, 10]) =
      some [[("h1", "a"), ("h2", "b")], [("h1", "a"), ("h2", "b")],
            [("h1", "a"), ("h2", "b")], [("h1", "c"), ("h2", "é")]] ∧
    process_single_csv (("h1,h2\na,b\nc,".data.map Char.toNat) ++ [0xE9, 10]) ≠
      some [[("h1", "a"), ("h2", "b")], [("h1", "c"), ("h2", "é")]] := by decide

/-! ### C8: revenue pass-through without deduplication -/

/-- The padded non-empty data rows one revenue file yields (all complete
rows the chosen encoding decodes, whether or not the file later fails). -/
def revenueFileRows (bytes : List Nat) : List (List String) :=
  match pickEncoding bytes with
  | none => []
  | some e =>
    match (readLines e bytes).1 with
    | [] => []
    | _headerLine :: body =>
      ((body.map parseCsvLine).filter nonEmptyRow).map padTruncRevenue

/-- Whether a revenue file counts as processed: an encoding was found, the
file is non-empty, and the whole file decoded. -/
def revenueFileOk (bytes : List Nat) : Bool :=
  match pickEncoding bytes with
  | none => false
  | some e => (readLines e bytes).2 && !((readLines e bytes).1.isEmpty)

theorem revenueProcessFile_spec (dateB dateE : String) (st : RevenueRunState)
    (f : List Nat × String) :
    revenueProcessFile dateB dateE st f =
      { flat := st.flat ++ (revenueFileRows f.1).map filterRevenueRow,
        db := st.db ++ (if revenueFileOk f.1 then
          ((revenueFileRows f.1).filter revenueNumericOk).map
            (fun r => ⟨r, dateB, dateE, f.2⟩) else []),
        files_processed := st.files_processed + (if revenueFileOk f.1 then 1 else 0),
        total_rows := st.total_rows + (revenueFileRows f.1).length } := by
  rw [revenueProcessFile]
  cases hpe : pickEncoding f.1 with
  | none =>
    rw [revenueFileRows, revenueFileOk, hpe]
    simp
  | some e =>
    rw [revenueFileRows, revenueFileOk, hpe]
    cases hlr : (readLines e f.1).1 with
    | nil =>
      simp only [revenueProcessLines, hlr]
      simp
    | cons headerLine body =>
      simp only [revenueProcessLines, hlr, List.isEmpty_cons, Bool.not_false, Bool.and_true]
      cases hok : (readLines e f.1).2 with
      | false => simp [insert_revenue_data]
      | true => simp [insert_revenue_data]

theorem consolidate_revenue_fold (dateB dateE : String) :
    ∀ (files : List (List Nat × String)) (st : RevenueRunState),
      files.foldl (revenueProcessFile dateB dateE) st =
        { flat := st.flat ++
            (files.map (fun f => (revenueFileRows f.1).map filterRevenueRow)).flatten,
          db := st.db ++
            (files.map (fun f => if revenueFileOk f.1 then
              ((revenueFileRows f.1).filter revenueNumericOk).map
                (fun r => ⟨r, dateB, dateE, f.2⟩) else [])).flatten,
          files_processed := st.files_processed +
            files.countP (fun f => revenueFileOk f.1),
          total_rows := st.total_rows +
            (files.map (fun f => (revenueFileRows f.1).length)).sum } := by
  intro files
  induction files with
  | nil => intro st; simp
  | cons f rest ih =>
    intro st
    rw [List.foldl_cons, revenueProcessFile_spec, ih]
    simp only [RevenueRunState.mk.injEq, List.map_cons, List.flatten_cons,
      List.countP_cons, List.sum_cons]
    refine ⟨?_, ?_, ?_, ?_⟩
    · rw [List.append_assoc]
    · rw [List.append_assoc]
    · by_cases hok : revenueFileOk f.1 = true
      · simp [hok]
        omega
      · simp only [Bool.not_eq_true] at hok
        simp [hok]
    · omega

/-- C8 counterexample: a fully processed revenue file holding one parsed
row whose Quantity field is the non-numeric string abc: the row is written
to the flat consolidated file (two flat rows: header plus the row) but the
numeric coercion failure makes insert_revenue_data skip it, so it is never
inserted into the relational store. -/
theorem revenue_row_skipped_in_db_cex :
    (consolidate_revenue_files "2025-07-01" "2025-07-31" []
        [(("h\nx0,x1,x2,x3,x4,x5,x6,x7,x8,x9,x10,abc,x12,1.5,,,,,,,x20,x21,x22\n".data.map
            Char.toNat), "f.csv")]).files_processed = 1 ∧
    (consolidate_revenue_files "2025-07-01" "2025-07-31" []
        [(("h\nx0,x1,x2,x3,x4,x5,x6,x7,x8,x9,x10,abc,x12,1.5,,,,,,,x20,x21,x22\n".data.map
            Char.toNat), "f.csv")]).flat.length = 2 ∧
    (consolidate_revenue_files "2025-07-01" "2025-07-31" []
        [(("h\nx0,x1,x2,x3,x4,x5,x6,x7,x8,x9,x10,abc,x12,1.5,,,,,,,x20,x21,x22\n".data.map
            Char.toNat), "f.csv")]).db = [] := by decide

/-- C8 (amended): the revenue pipeline never deduplicates.  Every complete
non-empty parsed row of every discovered file, byte-identical duplicates
included, is appended to the flat consolidated file in file-then-row
encounter order (rows read before a mid-file failure included); a row is
additionally inserted exactly once into the relational store, tagged with
the run provenance (declared date range and source file name), precisely
when its file processed fully AND its numeric fields all coerce — a row
with an uncoercible numeric field stays in the flat file but is skipped in
the store.  The store only grows: prior contents are preserved, so
re-runs accumulate. -/
theorem revenue_passthrough_no_dedup (dateB dateE : String) (db0 : List RevDbRow)
    (files : List (List Nat × String)) :
    (consolidate_revenue_files dateB dateE db0 files).flat =
      revenue_kept_headers ::
        (files.map (fun f => (revenueFileRows f.1).map filterRevenueRow)).flatten ∧
    (consolidate_revenue_files dateB dateE db0 files).db =
      db0 ++ (files.map (fun f => if revenueFileOk f.1 then
        ((revenueFileRows f.1).filter revenueNumericOk).map
          (fun r => ⟨r, dateB, dateE, f.2⟩) else [])).flatten ∧
    (consolidate_revenue_files dateB dateE db0 files).files_processed =
      files.countP (fun f => revenueFileOk f.1) ∧
    (consolidate_revenue_files dateB dateE db0 files).total_rows =
      (files.map (fun f => (revenueFileRows f.1).length)).sum := by
  rw [consolidate_revenue_files, consolidate_revenue_fold]
  refine ⟨rfl, rfl, ?_, ?_⟩
  · exact Nat.zero_add _
  · exact Nat.zero_add _

/-! ### C9: flat-file write discipline -/

/-- C9 counterexample: a fault after one row while writing a two-row flat
file (header plus one data row) leaves a non-empty strict prefix — the
lone header row — on disk: a partial flat file remains, because the writer
streams rows directly into the destination with no write-then-rename. -/
theorem flat_write_partial_cex :
    (writeRowsToDisk (some 1) (write_consolidated_csv full_expected_headers
        [("a@x.com",
          ⟨["a@x.com", "A", "", "", "Jan 01 2025 10:00 AM UTC", "", "", "3"], 5, 3⟩)])).1 =
      [full_expected_headers] ∧
    ([full_expected_headers] : List (List String)) ≠
      write_consolidated_csv full_expected_headers
        [("a@x.com",
          ⟨["a@x.com", "A", "", "", "Jan 01 2025 10:00 AM UTC", "", "", "3"], 5, 3⟩)] ∧
    ([full_expected_headers] : List (List String)) ≠ [] ∧
    (writeRowsToDisk (some 1) (write_consolidated_csv full_expected_headers
        [("a@x.com",
          ⟨["a@x.com", "A", "", "", "Jan 01 2025 10:00 AM UTC", "", "", "3"], 5, 3⟩)])).2 =
      false := by decide

/-- C9 (amended): the flat writer streams the header and the sorted data
rows directly to the destination.  What survives a faulted write is always
exactly the prefix written so far; the write succeeds precisely when no
fault occurs; and a fault striking before the last row leaves a PARTIAL
file differing from the intended content — there is no write-then-rename
or equivalent all-or-nothing discipline.  (In the mailing-list pipeline
the raised error propagates to the caller; the revenue pipeline catches
it, logs, and returns None.) -/
theorem flat_write_prefix_discipline (headers : List String)
    (data : List (String × EmailEntry)) (fault : Option Nat) :
    (writeRowsToDisk fault (write_consolidated_csv headers data)).1 =
      (write_consolidated_csv headers data).take
        ((writeRowsToDisk fault (write_consolidated_csv headers data)).1.length) ∧
    ((writeRowsToDisk fault (write_consolidated_csv headers data)).2 = true ↔
      fault = none) ∧
    (∀ k, fault = some k → k < (write_consolidated_csv headers data).length →
      (writeRowsToDisk fault (write_consolidated_csv headers data)).1 ≠
        write_consolidated_csv headers data) := by
  cases fault with
  | none =>
    refine ⟨?_, by simp [writeRowsToDisk], fun k hk => by simp at hk⟩
    rw [writeRowsToDisk]
    rw [List.take_length]
  | some k =>
    refine ⟨?_, by simp [writeRowsToDisk], fun k2 hk2 hlt heq => ?_⟩
    · rw [writeRowsToDisk, List.length_take]
      rcases Nat.le_total k (write_consolidated_csv headers data).length with hle | hle
      · rw [Nat.min_eq_left hle]
      · rw [Nat.min_eq_right hle, List.take_of_length_le hle,
          List.take_of_length_le (Nat.le_refl _)]
    · injection hk2 with hk3
      subst hk3
      have hlen := congrArg List.length heq
      rw [writeRowsToDisk, List.length_take] at hlen
      omega

/-- C9 witness: applying the discipline theorem at the counterexample
input shows the surviving file differs from the intended one. -/
theorem flat_write_prefix_discipline_witness :
    (writeRowsToDisk (some 1) (write_consolidated_csv full_expected_headers
        [("a@x.com",
          ⟨["a@x.com", "A", "", "", "Jan 01 2025 10:00 AM UTC", "", "", "3"], 5, 3⟩)])).1 ≠
      write_consolidated_csv full_expected_headers
        [("a@x.com",
          ⟨["a@x.com", "A", "", "", "Jan 01 2025 10:00 AM UTC", "", "", "3"], 5, 3⟩)] :=
  (flat_write_prefix_discipline full_expected_headers
    [("a@x.com",
      ⟨["a@x.com", "A", "", "", "Jan 01 2025 10:00 AM UTC", "", "", "3"], 5, 3⟩)]
    (some 1)).2.2 1 rfl (by decide)

/-! ### C10: source-file provenance of the mailing store -/

theorem countP_filter_of_imp {p q : MailDbRow → Bool} {l : List MailDbRow}
    (h : ∀ x ∈ l, p x = true → q x = true) :
    (l.filter q).countP p = l.countP p := by
  induction l with
  | nil => rfl
  | cons x rest ih =>
    have ihr := ih (fun y hy => h y (List.mem_cons_of_mem _ hy))
    by_cases hq : q x = true
    · rw [List.filter_cons, if_pos hq, List.countP_cons, List.countP_cons, ihr]
    · have hp : p x = false := by
        cases hpx : p x with
        | false => rfl
        | true => exact absurd (h x (List.mem_cons_self _ _) hpx) hq
      rw [List.filter_cons, if_neg hq, List.countP_cons, hp, ihr]
      simp

theorem insert_mailing_preserves_other_sources {source_files : List String} :
    ∀ (email_data : List (String × EmailEntry)) (db : List MailDbRow) (r : MailDbRow),
      r ∈ db → r.source_file ≠ String.intercalate ", " source_files →
      r ∈ insert_mailing_data db email_data source_files := by
  intro email_data
  induction email_data with
  | nil => intro db r hm _; exact hm
  | cons kv rest ih =>
    intro db r hm hsrc
    rw [insert_mailing_data, List.foldl_cons]
    by_cases hi : mailRowInsertable kv.2.record
    · rw [if_pos hi]
      refine ih _ r ?_ hsrc
      rw [insertOrReplaceMail]
      refine List.mem_append_left _ (List.mem_filter.mpr ⟨hm, ?_⟩)
      simp only [ne_eq, decide_not, Bool.not_eq_eq_eq_not, Bool.not_true,
        decide_eq_false_iff_not]
      intro hkey
      exact hsrc (congrArg Prod.snd hkey)
    · rw [if_neg hi]
      exact ih _ r hm hsrc

theorem countP_email_preserved (e : String) (source_files : List String) :
    ∀ (email_data : List (String × EmailEntry)) (db : List MailDbRow),
      (∀ kv ∈ email_data, kv.1 ≠ e) →
      (insert_mailing_data db email_data source_files).countP
          (fun r => r.email = e) =
        db.countP (fun r => r.email = e) := by
  intro email_data
  induction email_data with
  | nil => intro db _; rfl
  | cons kv rest ih =>
    intro db hne
    by_cases hi : mailRowInsertable kv.2.record
    · have hstep : insert_mailing_data db (kv :: rest) source_files =
          insert_mailing_data (insertOrReplaceMail db
            { email := kv.1, record := kv.2.record,
              num_purchases :=
                if stripChars (kv.2.record.getD 7 "").data = [] then 0
                else (pyInt? (kv.2.record.getD 7 "")).getD 0,
              total_purchases := kv.2.total_purchases,
              source_file := String.intercalate ", " source_files })
            rest source_files := by
        simp only [insert_mailing_data, List.foldl_cons, hi, if_true]
      rw [hstep, ih _ (fun kv2 hm2 => hne kv2 (List.mem_cons_of_mem _ hm2)),
        insertOrReplaceMail, List.countP_append]
      have hrow : (List.countP (fun r => decide (r.email = e))
          [({ email := kv.1, record := kv.2.record,
              num_purchases :=
                if stripChars (kv.2.record.getD 7 "").data = [] then 0
                else (pyInt? (kv.2.record.getD 7 "")).getD 0,
              total_purchases := kv.2.total_purchases,
              source_file := String.intercalate ", " source_files } : MailDbRow)]) = 0 := by
        simp [hne kv (List.mem_cons_self _ _)]
      rw [hrow, Nat.add_zero]
      refine countP_filter_of_imp ?_
      intro x hx hpx
      simp only [decide_eq_true_eq] at hpx
      simp only [ne_eq, decide_not, Bool.not_eq_eq_eq_not, Bool.not_true,
        decide_eq_false_iff_not]
      intro hkey
      have hfst := congrArg Prod.fst hkey
      simp only [mailKey] at hfst
      exact hne kv (List.mem_cons_self _ _) (hfst.symm.trans hpx)
    · have hstep : insert_mailing_data db (kv :: rest) source_files =
          insert_mailing_data db rest source_files := by
        simp only [insert_mailing_data, List.foldl_cons, hi, if_false,
          Bool.false_eq_true]
      rw [hstep]
      exact ih db (fun kv2 hm2 => hne kv2 (List.mem_cons_of_mem _ hm2))

theorem countP_email_insert (e : String) (source_files : List String) :
    ∀ (email_data : List (String × EmailEntry)) (db : List MailDbRow),
      ((email_data.map Prod.fst).Nodup) →
      (∀ r ∈ db, r.email ≠ e) →
      (insert_mailing_data db email_data source_files).countP
          (fun r => r.email = e) =
        (if email_data.any (fun kv => kv.1 = e && mailRowInsertable kv.2.record)
          then 1 else 0) := by
  intro email_data
  induction email_data with
  | nil =>
    intro db _ hfree
    have h0 : insert_mailing_data db [] source_files = db := rfl
    rw [h0]
    simp only [List.any_nil, Bool.false_eq_true, if_false]
    rw [List.countP_eq_zero]
    intro r hr
    simp [hfree r hr]
  | cons kv rest ih =>
    intro db hnd hfree
    rw [List.map_cons, List.nodup_cons] at hnd
    by_cases hke : kv.1 = e
    · have hrestne : ∀ kv2 ∈ rest, kv2.1 ≠ e := by
        intro kv2 hm2 hh
        exact hnd.1 (hke ▸ hh ▸ List.mem_map_of_mem Prod.fst hm2)
      by_cases hi : mailRowInsertable kv.2.record
      · have hstep : insert_mailing_data db (kv :: rest) source_files =
            insert_mailing_data (insertOrReplaceMail db
              { email := kv.1, record := kv.2.record,
                num_purchases :=
                  if stripChars (kv.2.record.getD 7 "").data = [] then 0
                  else (pyInt? (kv.2.record.getD 7 "")).getD 0,
                total_purchases := kv.2.total_purchases,
                source_file := String.intercalate ", " source_files })
              rest source_files := by
          simp only [insert_mailing_data, List.foldl_cons, hi, if_true]
        rw [hstep, countP_email_preserved e source_files rest _ hrestne,
          insertOrReplaceMail, List.countP_append]
        have hfilter : (List.countP (fun r => decide (r.email = e))
            (db.filter (fun x => decide (mailKey x ≠ mailKey
              { email := kv.1, record := kv.2.record,
                num_purchases :=
                  if stripChars (kv.2.record.getD 7 "").data = [] then 0
                  else (pyInt? (kv.2.record.getD 7 "")).getD 0,
                total_purchases := kv.2.total_purchases,
                source_file := String.intercalate ", " source_files })))) = 0 := by
          rw [List.countP_eq_zero]
          intro r hr
          simp [hfree r (List.mem_of_mem_filter hr)]
        rw [hfilter]
        have hone : (List.countP (fun r => decide (r.email = e))
            [({ email := kv.1, record := kv.2.record,
                num_purchases :=
                  if stripChars (kv.2.record.getD 7 "").data = [] then 0
                  else (pyInt? (kv.2.record.getD 7 "")).getD 0,
                total_purchases := kv.2.total_purchases,
                source_file := String.intercalate ", " source_files } : MailDbRow)]) = 1 := by
          simp [hke]
        rw [hone]
        rw [List.any_cons]
        simp [hke, hi]
      · have hstep : insert_mailing_data db (kv :: rest) source_files =
            insert_mailing_data db rest source_files := by
          simp only [insert_mailing_data, List.foldl_cons, hi, if_false,
            Bool.false_eq_true]
        rw [hstep, countP_email_preserved e source_files rest db hrestne]
        have hz : db.countP (fun r => r.email = e) = 0 := by
          rw [List.countP_eq_zero]
          intro r hr
          simp [hfree r hr]
        rw [hz, List.any_cons]
        have hrest : rest.any (fun kv2 => kv2.1 = e && mailRowInsertable kv2.2.record) =
            false := by
          rw [List.any_eq_false]
          intro kv2 hm2
          simp [hrestne kv2 hm2]
        rw [hrest]
        simp [hi]
    · by_cases hi : mailRowInsertable kv.2.record
      · have hstep : insert_mailing_data db (kv :: rest) source_files =
            insert_mailing_data (insertOrReplaceMail db
              { email := kv.1, record := kv.2.record,
                num_purchases :=
                  if stripChars (kv.2.record.getD 7 "").data = [] then 0
                  else (pyInt? (kv.2.record.getD 7 "")).getD 0,
                total_purchases := kv.2.total_purchases,
                source_file := String.intercalate ", " source_files })
              rest source_files := by
          simp only [insert_mailing_data, List.foldl_cons, hi, if_true]
        have hfree2 : ∀ r ∈ insertOrReplaceMail db
            { email := kv.1, record := kv.2.record,
              num_purchases :=
                if stripChars (kv.2.record.getD 7 "").data = [] then 0
                else (pyInt? (kv.2.record.getD 7 "")).getD 0,
              total_purchases := kv.2.total_purchases,
              source_file := String.intercalate ", " source_files }, r.email ≠ e := by
          intro r hr
          rw [insertOrReplaceMail] at hr
          rcases List.mem_append.mp hr with hr2 | hr2
          · exact hfree r (List.mem_of_mem_filter hr2)
          · simp only [List.mem_singleton] at hr2
            subst hr2
            exact hke
        rw [hstep, ih _ hnd.2 hfree2, List.any_cons]
        have hhead : (decide (kv.1 = e) && mailRowInsertable kv.2.record) = false := by
          simp [hke]
        rw [hhead, Bool.false_or]
      · have hstep : insert_mailing_data db (kv :: rest) source_files =
            insert_mailing_data db rest source_files := by
          simp only [insert_mailing_data, List.foldl_cons, hi, if_false,
            Bool.false_eq_true]
        rw [hstep, ih db hnd.2 hfree, List.any_cons]
        have hhead : (decide (kv.1 = e) && mailRowInsertable kv.2.record) = false := by
          simp [hke]
        rw [hhead, Bool.false_or]

/-- C10 counterexample: the comma-space join of the discovered basenames
is not injective, so two different discovered file sets can collide.  A
first run discovering two files and a second run discovering one file
whose name contains a comma and space produce the same joined string, and
the second run REPLACES the first run rows: one stored row remains where
the claim promises two.  Also, an email whose winning record has a
non-numeric purchase field yields NO stored row rather than exactly one:
the ValueError makes insert_mailing_data skip it. -/
theorem source_join_collision_cex :
    (insert_mailing_data
        (insert_mailing_data []
          [("a@x.com",
            ⟨["a@x.com", "A", "", "", "Jan 01 2025 10:00 AM UTC", "", "", "3"], 5, 3⟩)]
          ["mailing_lista.csv", "mailing_listb.csv"])
        [("a@x.com",
          ⟨["a@x.com", "A", "", "", "Jan 01 2025 10:00 AM UTC", "", "", "3"], 5, 3⟩)]
        ["mailing_lista.csv, mailing_listb.csv"]).length = 1 ∧
    (["mailing_lista.csv", "mailing_listb.csv"] : List String) ≠
      ["mailing_lista.csv, mailing_listb.csv"] ∧
    String.intercalate ", " ["mailing_lista.csv", "mailing_listb.csv"] =
      String.intercalate ", " ["mailing_lista.csv, mailing_listb.csv"] ∧
    (insert_mailing_data []
        [("b@x.com",
          ⟨["b@x.com", "B", "", "", "Jan 01 2025 10:00 AM UTC", "", "", "abc"], 5, 0⟩)]
        ["mailing_lista.csv"]).length = 0 := by decide

/-- C10 (amended): every row the mailing insert writes carries the same
source_file value, the comma-space join of ALL file names discovered in
the run (not only files containing that email); within a single run
starting from an empty table, each unique email yields exactly one stored
row when its winning record coerces and none otherwise; and a prior row
whose stored source string differs from the joined string of the current
run is never replaced — but runs are distinguished only by that joined
string, which is not injective in the discovered file set (see the
counterexample). -/
theorem mailing_store_provenance_and_upsert
    (email_data : List (String × EmailEntry)) (db : List MailDbRow)
    (source_files : List String) (e : String) :
    (∀ r ∈ insert_mailing_data db email_data source_files,
      r ∈ db ∨ r.source_file = String.intercalate ", " source_files) ∧
    (∀ r ∈ db, r.source_file ≠ String.intercalate ", " source_files →
      r ∈ insert_mailing_data db email_data source_files) ∧
    ((email_data.map Prod.fst).Nodup →
      (insert_mailing_data [] email_data source_files).countP
          (fun r => r.email = e) =
        (if email_data.any (fun kv => kv.1 = e && mailRowInsertable kv.2.record)
          then 1 else 0)) := by
  refine ⟨fun r hm => ?_, fun r hm hsrc => ?_, fun hnd => ?_⟩
  · rcases insert_mailing_mem_spec hm with hin | ⟨hsrc, _⟩
    · exact Or.inl hin
    · exact Or.inr hsrc
  · exact insert_mailing_preserves_other_sources email_data db r hm hsrc
  · exact countP_email_insert e source_files email_data [] hnd (by simp)

/-- C10 witness: one insertable entry, a prior row from a run with a
different source set is preserved, and the fresh run stores exactly one
row for the email. -/
theorem mailing_store_provenance_and_upsert_witness :
    (⟨"a@x.com", ["a@x.com", "Old", "", "", "Jan 01 2024 10:00 AM UTC", "", "", "1"],
        1, 1, "mailing_old.csv"⟩ : MailDbRow) ∈
      insert_mailing_data
        [⟨"a@x.com", ["a@x.com", "Old", "", "", "Jan 01 2024 10:00 AM UTC", "", "", "1"],
          1, 1, "mailing_old.csv"⟩]
        [("a@x.com",
          ⟨["a@x.com", "A", "", "", "Jan 01 2025 10:00 AM UTC", "", "", "3"], 5, 3⟩)]
        ["mailing_lista.csv"] ∧
    (insert_mailing_data []
        [("a@x.com",
          ⟨["a@x.com", "A", "", "", "Jan 01 2025 10:00 AM UTC", "", "", "3"], 5, 3⟩)]
        ["mailing_lista.csv"]).countP (fun r => r.email = "a@x.com") =
      (if ([("a@x.com",
          ⟨["a@x.com", "A", "", "", "Jan 01 2025 10:00 AM UTC", "", "", "3"], 5,
            3⟩)] : List (String × EmailEntry)).any
          (fun kv => kv.1 = "a@x.com" && mailRowInsertable kv.2.record)
        then 1 else 0) :=
  ⟨(mailing_store_provenance_and_upsert
      [("a@x.com",
        ⟨["a@x.com", "A", "", "", "Jan 01 2025 10:00 AM UTC", "", "", "3"], 5, 3⟩)]
      [⟨"a@x.com", ["a@x.com", "Old", "", "", "Jan 01 2024 10:00 AM UTC", "", "", "1"],
        1, 1, "mailing_old.csv"⟩]
      ["mailing_lista.csv"] "a@x.com").2.1
    ⟨"a@x.com", ["a@x.com", "Old", "", "", "Jan 01 2024 10:00 AM UTC", "", "", "1"],
      1, 1, "mailing_old.csv"⟩ (by decide) (by decide),
   (mailing_store_provenance_and_upsert
      [("a@x.com",
        ⟨["a@x.com", "A", "", "", "Jan 01 2025 10:00 AM UTC", "", "", "3"], 5, 3⟩)]
      [⟨"a@x.com", ["a@x.com", "Old", "", "", "Jan 01 2024 10:00 AM UTC", "", "", "1"],
        1, 1, "mailing_old.csv"⟩]
      ["mailing_lista.csv"] "a@x.com").2.2 (by decide)⟩

end Bandcamp
